import Mathlib

/-!
# Verification of the go-jmespath expression engine

Shallow embedding of the JMESPath engine sources (lexer, parser, the slice
utility and the built-in function library) together with proofs about the
properties stated in the specification.

Modelling conventions:

* Go `float64` values are modelled by `GoFloat`: exact rationals for finite
  values plus the IEEE special values NaN and the two infinities.  Arithmetic
  on finite values is exact (rounding is idealized); the special-value cases
  follow IEEE-754.
* Go strings are modelled as `List Char` (sequences of Unicode scalar values);
  positions and lengths count list elements, which coincides with Go's byte
  counts on ASCII data.
* Fallible Go code returns `Except GoErr` values; Go code that can abort with a
  runtime panic (failed type assertion, out-of-range slice index, comparison of
  uncomparable types) returns a `GoResult`, whose `crash` constructor marks the
  panic.
-/

namespace JMES

set_option maxRecDepth 4000

/-- Model of Go `float64`: exact rationals for finite values, plus NaN and the
two infinities.  Signed zero is not distinguished. -/
inductive GoFloat where
  | finite (q : ℚ)
  | nan
  | inf
  | ninf
deriving DecidableEq, Repr

namespace GoFloat

/-- IEEE-754 addition on `GoFloat` (exact on finite values). -/
def add : GoFloat → GoFloat → GoFloat
  | finite a, finite b => finite (a + b)
  | nan, _ => nan
  | _, nan => nan
  | inf, ninf => nan
  | ninf, inf => nan
  | inf, _ => inf
  | _, inf => inf
  | ninf, _ => ninf
  | _, ninf => ninf

/-- IEEE-754 division on `GoFloat` (exact on finite values): `0/0` is NaN and
`x/0` for `x ≠ 0` is a signed infinity. -/
def div : GoFloat → GoFloat → GoFloat
  | finite a, finite b =>
      if b = 0 then
        if a = 0 then nan else if 0 < a then inf else ninf
      else finite (a / b)
  | nan, _ => nan
  | _, nan => nan
  | inf, inf => nan
  | inf, ninf => nan
  | ninf, inf => nan
  | ninf, ninf => nan
  | inf, finite b => if 0 ≤ b then inf else ninf
  | ninf, finite b => if 0 ≤ b then ninf else inf
  | finite _, inf => finite 0
  | finite _, ninf => finite 0

/-- Go `<` on `float64`: any comparison involving NaN is false. -/
def lt : GoFloat → GoFloat → Bool
  | finite a, finite b => decide (a < b)
  | nan, _ => false
  | _, nan => false
  | inf, _ => false
  | ninf, ninf => false
  | ninf, _ => true
  | finite _, inf => true
  | finite _, ninf => false

/-- Go `==` on `float64`: NaN is unequal to everything, including itself. -/
def feq : GoFloat → GoFloat → Bool
  | finite a, finite b => decide (a = b)
  | inf, inf => true
  | ninf, ninf => true
  | _, _ => false

end GoFloat

/-- JSON-like runtime value (`interface{}` holding decoded JSON in Go):
null, booleans, numbers (`float64`), strings, arrays, objects, and the internal
expression-reference variant (spec §3: an ExpRef carries an AST node id). -/
inductive Value where
  | null
  | bool (b : Bool)
  | number (x : GoFloat)
  | str (s : List Char)
  | array (elems : List Value)
  | object (fields : List (List Char × Value))
  | expref (ref : Nat)
deriving Repr

/-- Errors surfaced by the engine.  `goError` is a plain `errors.New` message;
`synErr` is the lexer/parser `SyntaxError` carrying the expression text and the
byte offset of the offending token; `notFound` is the recoverable `NotFoundError`
non-match signal; `notAnInteger` mirrors the typed error constructor of the
function library; `invalidType` is a function-argument type-check failure. -/
inductive GoErr where
  | goError (msg : List Char)
  | synErr (msg : List Char) (expression : List Char) (offset : Nat)
  | notFound
  | notAnInteger (fn arg : List Char)
  | invalidType
deriving Repr

/-- Result of Go code that may also abort with a runtime panic. -/
inductive GoResult (α : Type) where
  | ok (val : α)
  | err (e : GoErr)
  | crash
deriving Repr

/-! ## The slice utility (`jputil`, src/unnamed/part_004)

`Slice` implements `[start:stop:step]` slicing over arrays.  The Go loop
`for i := start; i < stop; i += step` (resp. `i > stop` for negative step) is
embedded as the index walk `sliceIndices`, and the body `result = append(result,
slice[i])` becomes a map over that walk.  Element access `slice[i]` is modelled
with `List.getD`; the visited indices are proved to be in bounds
(`Slice_indices_inBounds`), so the default is never consulted. -/

/-- `SliceParam` (part_004): one of the three slice components, with a flag
recording whether it was given explicitly. -/
structure SliceParam where
  n : Int
  specified : Bool
deriving DecidableEq, Repr

/-- `capSlice` (part_004): normalize one explicitly-given slice bound against
the array length, taking the sign of the step into account. -/
def capSlice (length : Int) (actual : Int) (step : Int) : Int :=
  if actual < 0 then
    let actual := actual + length
    if actual < 0 then
      if step < 0 then -1 else 0
    else actual
  else if length ≤ actual then
    if step < 0 then length - 1 else length
  else actual

/-- Body of `computeSliceParams` once the step is known: fill in the defaults
for `start` and `stop` from the sign of the step, normalizing explicitly given
bounds through `capSlice`. -/
def computeSliceParamsWith (length step : Int) (parts : SliceParam × SliceParam × SliceParam) :
    Int × Int × Int :=
  let stepValueNegative := step < 0
  let start :=
    if ¬parts.1.specified then
      if stepValueNegative then length - 1 else 0
    else capSlice length parts.1.n step
  let stop :=
    if ¬parts.2.1.specified then
      if stepValueNegative then -1 else length
    else capSlice length parts.2.1.n step
  (start, stop, step)

/-- `computeSliceParams` (part_004): fill in defaults and normalize the three
slice parameters; a step of zero is an error. -/
def computeSliceParams (length : Int) (parts : SliceParam × SliceParam × SliceParam) :
    Except GoErr (Int × Int × Int) :=
  if ¬parts.2.2.specified then .ok (computeSliceParamsWith length 1 parts)
  else if parts.2.2.n = 0 then
    .error (GoErr.goError "Invalid slice, step cannot be 0".data)
  else .ok (computeSliceParamsWith length parts.2.2.n parts)

/-- Index walk of the Go loop `for i := start; i < stop; i += step` (used when
`step > 0`).  The `fuel` argument makes the recursion structural; `Slice`
supplies enough fuel for the walk never to be truncated
(`sliceIndicesUp_fuel_irrel`). -/
def sliceIndicesUp (stop step : Int) : Nat → Int → List Int
  | 0, _ => []
  | fuel + 1, i => if i < stop then i :: sliceIndicesUp stop step fuel (i + step) else []

/-- Index walk of the Go loop `for i := start; i > stop; i += step` (used when
`step < 0`). -/
def sliceIndicesDown (stop step : Int) : Nat → Int → List Int
  | 0, _ => []
  | fuel + 1, i => if stop < i then i :: sliceIndicesDown stop step fuel (i + step) else []

/-- The sequence of indices visited by `Slice`'s loops. -/
def sliceIndices (start stop step : Int) : List Int :=
  if 0 < step then sliceIndicesUp stop step ((stop - start).toNat + 1) start
  else sliceIndicesDown stop step ((start - stop).toNat + 1) start

/-- With a positive step, any fuel exceeding the remaining distance gives the
same walk: the fuel in `sliceIndices` is an artifact of the embedding, not a
behaviour of the loop. -/
theorem sliceIndicesUp_fuel_irrel (stop step : Int) (hstep : 0 < step) :
    ∀ (f g : Nat) (i : Int), (stop - i).toNat < f → (stop - i).toNat < g →
      sliceIndicesUp stop step f i = sliceIndicesUp stop step g i := by
  intro f
  induction f with
  | zero => intro g i hf; omega
  | succ f ih =>
    intro g i hf hg
    match g with
    | 0 => omega
    | g + 1 =>
      simp only [sliceIndicesUp]
      by_cases h : i < stop
      · simp only [if_pos h]
        have : (stop - (i + step)).toNat < f := by omega
        have : (stop - (i + step)).toNat < g := by omega
        rw [ih g (i + step) (by omega) (by omega)]
      · simp only [if_neg h]

/-- Negative-step analogue of `sliceIndicesUp_fuel_irrel`. -/
theorem sliceIndicesDown_fuel_irrel (stop step : Int) (hstep : step < 0) :
    ∀ (f g : Nat) (i : Int), (i - stop).toNat < f → (i - stop).toNat < g →
      sliceIndicesDown stop step f i = sliceIndicesDown stop step g i := by
  intro f
  induction f with
  | zero => intro g i hf; omega
  | succ f ih =>
    intro g i hf hg
    match g with
    | 0 => omega
    | g + 1 =>
      simp only [sliceIndicesDown]
      by_cases h : stop < i
      · simp only [if_pos h]
        rw [ih g (i + step) (by omega) (by omega)]
      · simp only [if_neg h]

/-- `Slice` (part_004): `[start:stop:step]` slicing of an array. -/
def Slice (slice : List Value) (parts : SliceParam × SliceParam × SliceParam) :
    Except GoErr (List Value) :=
  match computeSliceParams (slice.length : Int) parts with
  | .error e => .error e
  | .ok (start, stop, step) =>
      .ok ((sliceIndices start stop step).map fun i => slice.getD i.toNat Value.null)

/-- Normalization of one explicitly provided slice bound as worded by the
specification: "first increased by L if negative and then clamped to `[0, L]`
when step > 0 or to `[-1, L-1]` when step < 0". -/
def specBound (L n step : Int) : Int :=
  let n' := if n < 0 then n + L else n
  if 0 < step then max 0 (min L n') else max (-1) (min (L - 1) n')

/-- Slice evaluation as worded by the specification (default step 1, zero step
is an error, sign-dependent defaults, `specBound` normalization, and the index
walk); written only to be compared against the source-translated `Slice`. -/
def sliceSpec (slice : List Value) (parts : SliceParam × SliceParam × SliceParam) :
    Except GoErr (List Value) :=
  let L : Int := (slice.length : Int)
  let step := if parts.2.2.specified then parts.2.2.n else 1
  if step = 0 then .error (GoErr.goError "Invalid slice, step cannot be 0".data)
  else
    let start :=
      if parts.1.specified then specBound L parts.1.n step
      else if 0 < step then 0 else L - 1
    let stop :=
      if parts.2.1.specified then specBound L parts.2.1.n step
      else if 0 < step then L else -1
    .ok ((sliceIndices start stop step).map fun i => slice.getD i.toNat Value.null)

/-- `capSlice` computes exactly the specification's
add-length-if-negative-then-clamp normalization. -/
theorem capSlice_eq_specBound (L n step : Int) (hL : 0 ≤ L) (hstep : step ≠ 0) :
    capSlice L n step = specBound L n step := by
  simp only [capSlice, specBound, Int.min_def, Int.max_def]
  split_ifs <;> omega

/-- All indices visited by the positive-step walk lie in `[i, stop)`. -/
theorem sliceIndicesUp_mem (stop step : Int) (hstep : 0 < step) :
    ∀ (f : Nat) (i : Int), ∀ j ∈ sliceIndicesUp stop step f i, i ≤ j ∧ j < stop := by
  intro f
  induction f with
  | zero => intro i j hj; simp [sliceIndicesUp] at hj
  | succ f ih =>
    intro i j hj
    simp only [sliceIndicesUp] at hj
    by_cases h : i < stop
    · rw [if_pos h] at hj
      rcases List.mem_cons.mp hj with rfl | hj
      · exact ⟨le_refl _, h⟩
      · have := ih (i + step) j hj
        omega
    · rw [if_neg h] at hj
      simp at hj

/-- All indices visited by the negative-step walk lie in `(stop, i]`. -/
theorem sliceIndicesDown_mem (stop step : Int) (hstep : step < 0) :
    ∀ (f : Nat) (i : Int), ∀ j ∈ sliceIndicesDown stop step f i, j ≤ i ∧ stop < j := by
  intro f
  induction f with
  | zero => intro i j hj; simp [sliceIndicesDown] at hj
  | succ f ih =>
    intro i j hj
    simp only [sliceIndicesDown] at hj
    by_cases h : stop < i
    · rw [if_pos h] at hj
      rcases List.mem_cons.mp hj with rfl | hj
      · exact ⟨le_refl _, h⟩
      · have := ih (i + step) j hj
        omega
    · rw [if_neg h] at hj
      simp at hj

/-- `computeSliceParamsWith` produces exactly the specification's defaults and
`specBound` normalizations. -/
theorem computeSliceParamsWith_eq (L step : Int) (hL : 0 ≤ L) (hstep : step ≠ 0)
    (parts : SliceParam × SliceParam × SliceParam) :
    computeSliceParamsWith L step parts =
      ((if parts.1.specified then specBound L parts.1.n step
        else if 0 < step then 0 else L - 1),
       (if parts.2.1.specified then specBound L parts.2.1.n step
        else if 0 < step then L else -1),
       step) := by
  have hcap1 := capSlice_eq_specBound L parts.1.n step hL hstep
  have hcap2 := capSlice_eq_specBound L parts.2.1.n step hL hstep
  simp only [computeSliceParamsWith, Prod.mk.injEq]
  refine ⟨?_, ?_, trivial⟩
  · split_ifs <;> omega
  · split_ifs <;> omega

/-- The start and stop parameters produced by `computeSliceParamsWith` satisfy
the range constraints needed for in-bounds indexing. -/
theorem computeSliceParamsWith_bounds (L step : Int) (hL : 0 ≤ L) (hstep : step ≠ 0)
    (parts : SliceParam × SliceParam × SliceParam) :
    (0 < step → 0 ≤ (computeSliceParamsWith L step parts).1 ∧
      (computeSliceParamsWith L step parts).2.1 ≤ L) ∧
    (step < 0 → (computeSliceParamsWith L step parts).1 ≤ L - 1 ∧
      -1 ≤ (computeSliceParamsWith L step parts).2.1) := by
  simp only [computeSliceParamsWith, capSlice]
  split_ifs <;> constructor <;> intro h <;> constructor <;> omega

/-- Given in-range start and stop parameters, every index visited by the walk
is a valid array index. -/
theorem sliceIndices_inBounds (L start stop step : Int) (hstep : step ≠ 0)
    (hpos : 0 < step → 0 ≤ start ∧ stop ≤ L)
    (hneg : step < 0 → start ≤ L - 1 ∧ -1 ≤ stop) :
    ∀ i ∈ sliceIndices start stop step, 0 ≤ i ∧ i < L := by
  intro i hi
  unfold sliceIndices at hi
  by_cases h : 0 < step
  · rw [if_pos h] at hi
    have h1 := sliceIndicesUp_mem stop step h _ start i hi
    have h2 := hpos h
    omega
  · rw [if_neg h] at hi
    have hneg' : step < 0 := by omega
    have h1 := sliceIndicesDown_mem stop step hneg' _ start i hi
    have h2 := hneg hneg'
    omega

/-- **C3.** Slice evaluation over an array of length `L` follows the stated
rules exactly: default step 1 and zero step is an error; sign-dependent
defaults `start = 0, stop = L` (positive step) and `start = L-1, stop = -1`
(negative step); each explicit bound is increased by `L` if negative and then
clamped to `[0, L]` (positive step) or `[-1, L-1]` (negative step); the result
walks the indices `start, start+step, …` while below (resp. above) `stop`.
Moreover every visited index is a valid index of the array. -/
theorem C3_slice_semantics (slice : List Value) (parts : SliceParam × SliceParam × SliceParam) :
    Slice slice parts = sliceSpec slice parts ∧
    (∀ start stop step, computeSliceParams (slice.length : Int) parts =
        .ok (start, stop, step) →
      ∀ i ∈ sliceIndices start stop step, 0 ≤ i ∧ i < (slice.length : Int)) := by
  have hL : (0 : Int) ≤ (slice.length : Int) := Int.ofNat_nonneg _
  constructor
  · unfold Slice sliceSpec
    by_cases h2 : parts.2.2.specified
    · by_cases hz : parts.2.2.n = 0
      · simp [computeSliceParams, h2, hz]
      · simp [computeSliceParams, h2, hz,
          computeSliceParamsWith_eq (slice.length : Int) _ hL hz]
    · simp [computeSliceParams, h2,
        computeSliceParamsWith_eq (slice.length : Int) 1 hL one_ne_zero]
  · intro start stop step hok i hi
    have main : ∀ st : Int, st ≠ 0 →
        computeSliceParamsWith (slice.length : Int) st parts = (start, stop, step) →
        (0 ≤ i ∧ i < (slice.length : Int)) := by
      intro st hst heq
      have hb := computeSliceParamsWith_bounds (slice.length : Int) st hL hst parts
      rw [heq] at hb
      have hstep : step = st := by
        have := congrArg (fun p => p.2.2) heq
        simpa [computeSliceParamsWith] using this.symm
      subst hstep
      exact sliceIndices_inBounds (slice.length : Int) start stop step hst hb.1 hb.2 i hi
    by_cases h2 : parts.2.2.specified
    · by_cases hz : parts.2.2.n = 0
      · simp [computeSliceParams, h2, hz] at hok
      · simp [computeSliceParams, h2, hz] at hok
        exact main parts.2.2.n hz hok
    · simp [computeSliceParams, h2] at hok
      exact main 1 one_ne_zero hok

/-- Demonstration array and parameters for the C3 witness (the regression test
of part_003: slicing `[0,1,2,3,4]` with `[0:3:1]`). -/
def c3Arr : List Value :=
  [Value.number (GoFloat.finite 0), Value.number (GoFloat.finite 1),
   Value.number (GoFloat.finite 2), Value.number (GoFloat.finite 3),
   Value.number (GoFloat.finite 4)]

def c3Parts : SliceParam × SliceParam × SliceParam :=
  (⟨0, true⟩, ⟨3, true⟩, ⟨1, true⟩)

theorem C3_slice_semantics_witness :
    Slice c3Arr c3Parts = sliceSpec c3Arr c3Parts ∧ (0 ≤ (1 : Int) ∧ (1 : Int) < 5) :=
  ⟨(C3_slice_semantics c3Arr c3Parts).1,
   by
    have h := (C3_slice_semantics c3Arr c3Parts).2 0 3 1 (by rfl) 1 (by decide)
    exact_mod_cast h⟩

/-! ## Go string primitives

The function library uses `strings.Index`, `strings.LastIndex` and
`strings.Contains` from the Go standard library; they are embedded here over
`List Char`. -/

/-- Helper for `goIndex`: first position at or after `i` where `sub` occurs. -/
def goIndexAux (sub : List Char) : List Char → Nat → Int
  | [], i => if sub.isEmpty then (i : Int) else -1
  | s@(_ :: rest), i => if sub.isPrefixOf s then (i : Int) else goIndexAux sub rest (i + 1)

/-- `strings.Index`: index of the first occurrence of `sub` in `s`, or `-1`. -/
def goIndex (s sub : List Char) : Int := goIndexAux sub s 0

/-- Helper for `goLastIndex`: last occurrence position, tracking the best
match seen so far. -/
def goLastIndexAux (sub : List Char) : List Char → Nat → Int → Int
  | [], i, best => if sub.isEmpty then (i : Int) else best
  | s@(_ :: rest), i, best =>
      goLastIndexAux sub rest (i + 1) (if sub.isPrefixOf s then (i : Int) else best)

/-- `strings.LastIndex`: index of the last occurrence of `sub` in `s`, or `-1`. -/
def goLastIndex (s sub : List Char) : Int := goLastIndexAux sub s 0 (-1)

/-- `strings.Contains`: whether `sub` occurs in `s`. -/
def goContains (s sub : List Char) : Bool := decide (0 ≤ goIndex s sub)

/-! ## find_first / find_last (part_001) -/

/-- Modelled from the spec: `toInteger` lives in the helper file `util.go`,
which is not under src/.  Per §3, integer-only operations "require values that
are finite and equal to their integer truncation": a `float64` argument
qualifies iff it is a finite number with zero fractional part; any other
argument does not. -/
def toInteger (v : Value) : Option Int :=
  match v with
  | .number (.finite q) => if q.den = 1 then some q.num else none
  | _ => none

/-- `jpfFindImpl` (part_001): shared implementation of `find_first` and
`find_last`.  Go's string slicing `subject[start:end]` panics unless
`0 ≤ start ≤ end ≤ len(subject)`; the panic is modelled by `GoResult.crash`,
as is the type-assertion failure on non-string leading arguments. -/
def jpfFindImplGo (name : List Char) (arguments : List Value)
    (find : List Char → List Char → Int) : GoResult Value :=
  match arguments.getD 0 Value.null, arguments.getD 1 Value.null with
  | Value.str subject, Value.str substr =>
    if subject.length = 0 ∨ substr.length = 0 then .ok Value.null
    else
      let startRes : GoResult Int :=
        if 2 < arguments.length then
          match toInteger (arguments.getD 2 Value.null) with
          | none => .err (.notAnInteger name "start".data)
          | some num => .ok (max 0 num)
        else .ok 0
      match startRes with
      | .err e => .err e
      | .crash => .crash
      | .ok start =>
        let endRes : GoResult Int :=
          if 3 < arguments.length then
            match toInteger (arguments.getD 3 Value.null) with
            | none => .err (.notAnInteger name "end".data)
            | some num => .ok (min num (subject.length : Int))
          else .ok (subject.length : Int)
        match endRes with
        | .err e => .err e
        | .crash => .crash
        | .ok stop =>
          if 0 ≤ start ∧ start ≤ stop ∧ stop ≤ (subject.length : Int) then
            let offset := find ((subject.drop start.toNat).take (stop - start).toNat) substr
            if offset = -1 then .ok Value.null
            else .ok (.number (.finite ((start + offset : Int) : ℚ)))
          else .crash
  | _, _ => .crash

/-- `jpfFindFirst` (part_001). -/
def jpfFindFirst (arguments : List Value) : GoResult Value :=
  jpfFindImplGo "find_first".data arguments goIndex

/-- `jpfFindLast` (part_001). -/
def jpfFindLast (arguments : List Value) : GoResult Value :=
  jpfFindImplGo "find_last".data arguments goLastIndex

/-- The window step of the amended find_first/find_last description: search in
`subject[start:stop]`, returning `start + found-index` as the offset into the
whole subject, null when not found, and panicking when the clamped window is
invalid (`start > stop`, see C6). -/
def findSpecWindow (find : List Char → List Char → Int) (subject substr : List Char)
    (start stop : Int) : GoResult Value :=
  if start ≤ stop then
    (let offset := find ((subject.drop start.toNat).take (stop - start).toNat) substr
     if offset = -1 then GoResult.ok Value.null
     else GoResult.ok (Value.number (GoFloat.finite ((start + offset : Int) : ℚ))))
  else GoResult.crash

/-- End-bound step of the amended find_first/find_last description: a
non-integer end bound fails NotAnInteger, and an explicit end is clamped to
`min end (len subject)` (an absent one defaults to `len subject`). -/
def findSpecEnd (name : List Char) (find : List Char → List Char → Int)
    (subject substr : List Char) (start : Int) (b3 : Option Value) : GoResult Value :=
  match b3 with
  | some v =>
      match toInteger v with
      | none => .err (.notAnInteger name "end".data)
      | some num => findSpecWindow find subject substr start (min num (subject.length : Int))
  | none => findSpecWindow find subject substr start (subject.length : Int)

/-- find_first/find_last as described by the amended claim: an empty subject or
substring yields null before anything else; then a non-integer start bound
fails NotAnInteger and an explicit start is clamped to `max 0 start` (an absent
one defaults to 0); then the end bound is handled by `findSpecEnd`. -/
def findSpec (name : List Char) (find : List Char → List Char → Int)
    (subject substr : List Char) (b2 b3 : Option Value) : GoResult Value :=
  if subject = [] ∨ substr = [] then .ok Value.null
  else
    match b2 with
    | some v =>
        match toInteger v with
        | none => .err (.notAnInteger name "start".data)
        | some num => findSpecEnd name find subject substr (max 0 num) b3
    | none => findSpecEnd name find subject substr 0 b3

/-- **C5 counterexample.** `find_first("", "x", 1.5)` returns null rather than
failing NotAnInteger: the empty-subject/empty-substring check precedes the
integer-validity check of the bounds, while the claim orders the NotAnInteger
failure first. -/
theorem C5_counterexample :
    jpfFindFirst [Value.str [], Value.str "x".data,
        Value.number (GoFloat.finite (3 / 2))] = GoResult.ok Value.null ∧
    ∀ e : GoErr, jpfFindFirst [Value.str [], Value.str "x".data,
        Value.number (GoFloat.finite (3 / 2))] ≠ GoResult.err e := by
  refine ⟨rfl, ?_⟩
  intro e h
  rw [show jpfFindFirst [Value.str [], Value.str "x".data,
        Value.number (GoFloat.finite (3 / 2))] = GoResult.ok Value.null from rfl] at h
  exact GoResult.noConfusion h

/-- **C5 (amended).** find_first/find_last behave as follows: an empty subject
or empty substring yields null (this check comes first, before the bounds are
examined); otherwise a bound that is not an integer-valued number fails
NotAnInteger (start before end); the bounds are clamped to `start = max(0,
start)` and `end = min(end, len(subject))`; when the clamped window is valid
the returned value is the clamped start plus the index found in the searched
window (null when not found), and when the clamped start exceeds the clamped
end the evaluation panics (C6). -/
theorem C5_find_first_last (name : List Char) (find : List Char → List Char → Int)
    (subject substr : List Char) (b2 b3 : Option Value) (hopt : b2 = none → b3 = none) :
    jpfFindImplGo name (Value.str subject :: Value.str substr :: (b2.toList ++ b3.toList)) find
      = findSpec name find subject substr b2 b3 := by
  by_cases hemp : subject = [] ∨ substr = []
  · have hlen : subject.length = 0 ∨ substr.length = 0 := by
      rcases hemp with h | h <;> simp [h]
    cases b2 <;> cases b3 <;>
      simp only [jpfFindImplGo, findSpec, Option.toList, List.append_nil, List.nil_append,
        List.getD_cons_zero, List.getD_cons_succ, if_pos hemp, if_pos hlen]
  · have hlen : ¬(subject.length = 0 ∨ substr.length = 0) := by
      rcases not_or.mp hemp with ⟨h1, h2⟩
      simp [List.length_eq_zero, h1, h2]
    cases b2 with
    | none =>
      have hb3 := hopt rfl
      subst hb3
      simp only [jpfFindImplGo, findSpec, findSpecEnd, Option.toList, List.append_nil,
        List.getD_cons_zero, List.getD_cons_succ, List.length_cons, List.length_nil,
        if_neg hemp, if_neg hlen]
      norm_num
      simp [findSpecWindow, Int.natCast_nonneg, List.take_length]
    | some v2 =>
      cases b3 with
      | none =>
        simp only [jpfFindImplGo, findSpec, findSpecEnd, Option.toList, List.append_nil,
          List.nil_append, List.getD_cons_zero, List.getD_cons_succ, List.length_cons,
          List.length_nil, if_neg hemp, if_neg hlen]
        norm_num
        cases htoi : toInteger v2 with
        | none => rfl
        | some num =>
          dsimp only
          simp [findSpecWindow, le_max_left, min_le_right, Int.natCast_nonneg, List.take_length]
      | some v3 =>
        simp only [jpfFindImplGo, findSpec, findSpecEnd, Option.toList, List.append_nil,
          List.cons_append, List.nil_append, List.getD_cons_zero, List.getD_cons_succ,
          List.length_cons, List.length_nil, if_neg hemp, if_neg hlen]
        norm_num
        cases htoi : toInteger v2 with
        | none => rfl
        | some num =>
          cases htoi3 : toInteger v3 with
          | none => rfl
          | some num3 =>
            dsimp only
            simp [findSpecWindow, le_max_left, min_le_right, Int.natCast_nonneg, List.take_length]

theorem C5_find_first_last_witness :
    jpfFindImplGo "find_first".data
        [Value.str "abcab".data, Value.str "ab".data, Value.number (GoFloat.finite 1)]
        goIndex
      = findSpec "find_first".data goIndex "abcab".data "ab".data
          (some (Value.number (GoFloat.finite 1))) none ∧
    jpfFindFirst [Value.str "abcab".data, Value.str "ab".data,
        Value.number (GoFloat.finite 1)]
      = GoResult.ok (Value.number (GoFloat.finite 3)) :=
  ⟨C5_find_first_last "find_first".data goIndex "abcab".data "ab".data
      (some (Value.number (GoFloat.finite 1))) none (fun h => by cases h),
   by rfl⟩

/-- **C6.** The claim asserts that after clamping, the window bounds always
satisfy `0 ≤ start ≤ end ≤ len(subject)` so that the internal slicing is in
bounds.  This fails: `start` is only clamped from below and `end` only from
above, so `find_first("abc", "b", 5)` computes `start = 5 > end = 3` and the
Go expression `subject[start:end]` panics with a slice-bounds violation. -/
theorem C6_find_first_crash :
    jpfFindFirst [Value.str "abc".data, Value.str "b".data,
      Value.number (GoFloat.finite 5)] = GoResult.crash := by rfl

/-! ## avg (identical in part_000 and part_001) -/

/-- The summation loop of `jpfAvg`: `numerator += n.(float64)` over the
elements, left to right; a non-number element makes the type assertion panic
(`none`). -/
def sumFloatsAux (acc : GoFloat) : List Value → Option GoFloat
  | [] => some acc
  | v :: rest =>
    match v with
    | .number x => sumFloatsAux (GoFloat.add acc x) rest
    | _ => none

/-- `jpfAvg` (part_000 and part_001, identical): sums the elements and divides
by the length.  There is no empty-array check: for an empty array the division
is `0.0 / 0.0`. -/
def jpfAvg (arguments : List Value) : GoResult Value :=
  match arguments.getD 0 Value.null with
  | .array args =>
      match sumFloatsAux (.finite 0) args with
      | none => .crash
      | some numerator =>
          .ok (.number (GoFloat.div numerator (.finite (args.length : ℚ))))
  | _ => .crash

/-- **C8.** The claim (and the spec) says `avg([])` is null; the code divides
the zero sum by the zero length, producing the float64 NaN instead.  (For
comparison, `jpfMax`/`jpfMin` in the same file do return null on empty input.) -/
theorem C8_avg_empty_is_nan :
    jpfAvg [Value.array []] = GoResult.ok (Value.number GoFloat.nan) ∧
    jpfAvg [Value.array []] ≠ GoResult.ok Value.null := by
  refine ⟨rfl, ?_⟩
  intro h
  rw [show jpfAvg [Value.array []] = GoResult.ok (Value.number GoFloat.nan) from rfl] at h
  simp at h

/-! ## contains (part_001) -/

/-- Go `==` on two `interface{}` values holding JSON data: nil equals nil, two
values of different dynamic types are unequal, values of the same comparable
dynamic type (bool, float64, string) compare by value — float64 with IEEE
semantics, so NaN equals nothing — and comparing two values of the same
uncomparable dynamic type (slice, map, or the expRef struct, which contains
slices) aborts with a runtime panic. -/
def goEq : Value → Value → GoResult Bool
  | .null, .null => .ok true
  | .bool a, .bool b => .ok (a == b)
  | .number a, .number b => .ok (GoFloat.feq a b)
  | .str a, .str b => .ok (a == b)
  | .array _, .array _ => .crash
  | .object _, .object _ => .crash
  | .expref _, .expref _ => .crash
  | _, _ => .ok false

/-- Total fragment of `goEq`: the Boolean it returns whenever it does not
panic. -/
def goEqB : Value → Value → Bool
  | .null, .null => true
  | .bool a, .bool b => a == b
  | .number a, .number b => GoFloat.feq a b
  | .str a, .str b => a == b
  | _, _ => false

theorem goEq_eq_goEqB (a b : Value) (h : goEq a b ≠ GoResult.crash) :
    goEq a b = GoResult.ok (goEqB a b) := by
  cases a <;> cases b <;> first | rfl | exact absurd rfl h

/-- The element loop of `jpfContains`: `for _, item := range general { if item
== el { return true } }`. -/
def containsLoop (el : Value) : List Value → GoResult Value
  | [] => .ok (.bool false)
  | item :: rest =>
      match goEq item el with
      | .crash => .crash
      | .err e => .err e
      | .ok true => .ok (.bool true)
      | .ok false => containsLoop el rest

/-- `jpfContains` (part_001): substring test for a string haystack (false for a
non-string needle); Go interface equality against each element for an array
haystack. -/
def jpfContains (arguments : List Value) : GoResult Value :=
  match arguments.getD 0 Value.null with
  | .str searchStr =>
      match arguments.getD 1 Value.null with
      | .str elStr => .ok (.bool (goContains searchStr elStr))
      | _ => .ok (.bool false)
  | .array general => containsLoop (arguments.getD 1 Value.null) general
  | _ => .crash

/-- **C9 counterexample.** `contains([[1]], [1])` should be true under the
claimed structural equality; the code compares the element and the needle with
Go `==`, which panics on two slices. -/
theorem C9_counterexample :
    jpfContains [Value.array [Value.array [Value.number (GoFloat.finite 1)]],
        Value.array [Value.number (GoFloat.finite 1)]] = GoResult.crash ∧
    jpfContains [Value.array [Value.array [Value.number (GoFloat.finite 1)]],
        Value.array [Value.number (GoFloat.finite 1)]]
      ≠ GoResult.ok (Value.bool true) := by
  refine ⟨rfl, ?_⟩
  intro h
  rw [show jpfContains [Value.array [Value.array [Value.number (GoFloat.finite 1)]],
        Value.array [Value.number (GoFloat.finite 1)]] = GoResult.crash from rfl] at h
  exact GoResult.noConfusion h

theorem containsLoop_eq_any (el : Value) (items : List Value)
    (h : ∀ x ∈ items, goEq x el ≠ GoResult.crash) :
    containsLoop el items = GoResult.ok (Value.bool (items.any fun x => goEqB x el)) := by
  induction items with
  | nil => rfl
  | cons item rest ih =>
    have hhd : goEq item el = GoResult.ok (goEqB item el) :=
      goEq_eq_goEqB item el (h item (List.mem_cons_self _ _))
    have htl := ih fun x hx => h x (List.mem_cons_of_mem _ hx)
    simp only [containsLoop, hhd, List.any_cons]
    cases hb : goEqB item el with
    | true => simp
    | false => simp [htl]

/-- **C9 (amended).** For a string haystack: true exactly when the needle is a
string occurring as a substring (false for a non-string needle).  For an array
haystack, membership is decided by Go interface equality, not structural
equality: provided no element has the same uncomparable dynamic type as the
needle (in which case the evaluation panics, see the counterexample), the
result is true iff some element equals the needle as a scalar — null, bool,
float64 or string compared by value. -/
theorem C9_contains (s e : List Char) (items : List Value) (el : Value)
    (hv : ∀ x ∈ items, goEq x el ≠ GoResult.crash) :
    jpfContains [Value.str s, Value.str e] = .ok (.bool (goContains s e)) ∧
    (∀ v, (∀ t, v ≠ Value.str t) → jpfContains [Value.str s, v] = .ok (.bool false)) ∧
    jpfContains [Value.array items, el]
      = GoResult.ok (Value.bool (items.any fun x => goEqB x el)) := by
  refine ⟨rfl, ?_, ?_⟩
  · intro v hvt
    cases v with
    | str t => exact absurd rfl (hvt t)
    | null => rfl
    | bool b => rfl
    | number x => rfl
    | array a => rfl
    | object o => rfl
    | expref r => rfl
  · exact containsLoop_eq_any el items hv

theorem C9_contains_witness :
    jpfContains [Value.str "foobar".data, Value.str "oba".data]
        = GoResult.ok (Value.bool (goContains "foobar".data "oba".data)) ∧
    jpfContains [Value.array [Value.number (GoFloat.finite 1), Value.str "x".data],
        Value.number (GoFloat.finite 1)] = GoResult.ok (Value.bool true) := by
  have h := C9_contains "foobar".data "oba".data
    [Value.number (GoFloat.finite 1), Value.str "x".data]
    (Value.number (GoFloat.finite 1))
    (by
      intro x hx
      simp only [List.mem_cons, List.not_mem_nil, or_false] at hx
      rcases hx with rfl | rfl
      · intro hc; simp [goEq] at hc
      · intro hc; simp [goEq] at hc)
  refine ⟨h.1, ?_⟩
  rw [h.2.2]
  rfl

/-! ## map (both editions)

`jpfMap` receives the dispatcher-injected interpreter and the expref argument
and calls `intr.Execute(node, value)` on each element.  The interpreter itself
is not under src/; the `(intr, node)` pair is only ever used through `Execute`,
so it is modelled by the evaluation closure `eval` (exactly the shape produced
by `NewExpressionEvaluator` in part_007).  On error, `Execute` returns the Go
zero value `nil` alongside the error, which decodes to JSON null. -/

namespace Part001

/-- `jpfMap` (part_001 edition): evaluates the expression on each element in
order; any error — including NotFound — aborts the whole call. -/
def jpfMap (eval : Value → Except GoErr Value) : List Value → Except GoErr (List Value)
  | [] => .ok []
  | value :: rest =>
      match eval value with
      | .error e => .error e
      | .ok current =>
          match jpfMap eval rest with
          | .error e => .error e
          | .ok mapped => .ok (current :: mapped)

end Part001

namespace Part000

/-- `jpfMap` (part_000 edition): evaluates the expression on each element in
order; a NotFoundError is swallowed and the nil result (null) is appended;
any other error aborts the whole call. -/
def jpfMap (eval : Value → Except GoErr Value) : List Value → Except GoErr (List Value)
  | [] => .ok []
  | value :: rest =>
      match eval value with
      | .error GoErr.notFound =>
          match jpfMap eval rest with
          | .error e => .error e
          | .ok mapped => .ok (Value.null :: mapped)
      | .error e => .error e
      | .ok current =>
          match jpfMap eval rest with
          | .error e => .error e
          | .ok mapped => .ok (current :: mapped)

end Part000

/-- Modelled from the spec: the interpreter (`Execute`) is not under src/.
Field-node semantics per §4.3: "*Field(name)* returns the named key of an
object value; if current is not object-like (including null), fails with
`NotFound`"; a missing key is likewise the NotFound non-match signal (§4.5,
and the regression test `TestMapFunction_MustHandleError`). -/
def execField (name : List Char) (v : Value) : Except GoErr Value :=
  match v with
  | .object fields =>
      match fields.lookup name with
      | some x => .ok x
      | none => .error .notFound
  | _ => .error .notFound

/-- **C1 counterexample.** Mapping the field expression `&c` over the one
element array `[{}]`: the claim says the NotFound on the element becomes null,
yielding `[null]`; the part_001 edition of `jpfMap` propagates the NotFound as
an error instead. -/
theorem C1_counterexample :
    Part001.jpfMap (execField "c".data) [Value.object []] = .error GoErr.notFound ∧
    Part001.jpfMap (execField "c".data) [Value.object []] ≠ .ok [Value.null] := by
  refine ⟨rfl, ?_⟩
  intro h
  rw [show Part001.jpfMap (execField "c".data) [Value.object []]
        = .error GoErr.notFound from rfl] at h
  exact Except.noConfusion h

/-- **C1 (amended).** In the part_000 edition, `map(&e, a)` behaves as claimed:
provided the evaluation of `e` on each element either succeeds or fails with
NotFound (other errors are propagated), the result is the array of the
per-element results in order, with NotFound contributing null — in particular
it has the same length as `a`.  (The part_001 edition instead propagates the
NotFound, see the counterexample.) -/
theorem C1_map_notFound_as_null (eval : Value → Except GoErr Value) (arr : List Value)
    (h : ∀ x ∈ arr, eval x = .error GoErr.notFound ∨ ∃ v, eval x = .ok v) :
    Part000.jpfMap eval arr
      = .ok (arr.map fun x =>
          match eval x with
          | .ok v => v
          | .error _ => Value.null) := by
  induction arr with
  | nil => rfl
  | cons value rest ih =>
    have hrest := ih fun x hx => h x (List.mem_cons_of_mem _ hx)
    rcases h value (List.mem_cons_self _ _) with hnf | ⟨v, hv⟩
    · simp only [Part000.jpfMap, hnf, hrest, List.map_cons]
    · simp only [Part000.jpfMap, hv, hrest, List.map_cons]

theorem C1_map_notFound_as_null_witness :
    Part000.jpfMap (execField "c".data)
        [Value.object [("c".data, Value.str "z".data)], Value.object []]
      = .ok [Value.str "z".data, Value.null] := by
  have h := C1_map_notFound_as_null (execField "c".data)
    [Value.object [("c".data, Value.str "z".data)], Value.object []]
    (by
      intro x hx
      simp only [List.mem_cons, List.not_mem_nil, or_false] at hx
      rcases hx with rfl | rfl
      · exact Or.inr ⟨Value.str "z".data, rfl⟩
      · exact Or.inl rfl)
  rw [h]
  rfl

/-! ## Function arity resolution (part_001, errors.go)

`functionEntry.resolveArgs` checks the argument count against the declared
argument specs and then type-checks each position.  The `handler` field of
`functionEntry` is not represented: `resolveArgs` never consults it, and the
claims below are about names, specs and argument lists only. -/

/-- `jpType` (part_001). -/
inductive JpType where
  | jpNumber
  | jpString
  | jpArray
  | jpObject
  | jpArrayNumber
  | jpArrayString
  | jpExpref
  | jpAny
deriving DecidableEq, Repr

/-- `argSpec` (part_001). -/
structure ArgSpec where
  types : List JpType
  variadic : Bool := false
  optional : Bool := false
deriving DecidableEq, Repr

/-- `functionEntry` (part_001), minus the handler (see the section comment). -/
structure FunctionEntry where
  name : List Char
  arguments : List ArgSpec
  hasExpRef : Bool := false
deriving DecidableEq, Repr

/-- `isVariadic` (part_001). -/
def isVariadic (arguments : List ArgSpec) : Bool :=
  arguments.any (·.variadic)

/-- `getMinExpected` (part_001): the number of non-optional specs. -/
def getMinExpected (arguments : List ArgSpec) : Nat :=
  arguments.countP fun s => !s.optional

/-- `getMaxExpected` (part_001): the total number of specs; absent (`none`)
when the signature is variadic. -/
def getMaxExpected (arguments : List ArgSpec) : Option Nat :=
  if isVariadic arguments then none else some arguments.length

/-- Modelled from the spec: `isSliceType` (util.go, not under src/) — whether
the value is an array. -/
def isSliceType : Value → Bool
  | .array _ => true
  | _ => false

/-- Modelled from the spec: success of `toArrayNum` (util.go, not under src/)
— an array all of whose elements are numbers. -/
def isArrayNum : Value → Bool
  | .array xs => xs.all fun v => match v with | .number _ => true | _ => false
  | _ => false

/-- Modelled from the spec: success of `toArrayStr` (util.go, not under src/)
— an array all of whose elements are strings. -/
def isArrayStr : Value → Bool
  | .array xs => xs.all fun v => match v with | .str _ => true | _ => false
  | _ => false

/-- One case of the `switch` in `argSpec.typeCheck` (part_001). -/
def typeCheckOne (t : JpType) (arg : Value) : Bool :=
  match t with
  | .jpNumber => match arg with | .number _ => true | _ => false
  | .jpString => match arg with | .str _ => true | _ => false
  | .jpArray => isSliceType arg
  | .jpObject => match arg with | .object _ => true | _ => false
  | .jpArrayNumber => isArrayNum arg
  | .jpArrayString => isArrayStr arg
  | .jpAny => true
  | .jpExpref => match arg with | .expref _ => true | _ => false

/-- `argSpec.typeCheck` (part_001): accept when any allowed type matches; the
`fmt.Errorf` invalid-type failure is modelled by the `invalidType` error (its
message text plays no role in the claims). -/
def ArgSpec.typeCheck (a : ArgSpec) (arg : Value) : Except GoErr Unit :=
  if a.types.any fun t => typeCheckOne t arg then .ok () else .error .invalidType

/-- Decimal digit character. -/
def digitChar : Nat → Char
  | 0 => '0'
  | 1 => '1'
  | 2 => '2'
  | 3 => '3'
  | 4 => '4'
  | 5 => '5'
  | 6 => '6'
  | 7 => '7'
  | 8 => '8'
  | _ => '9'

/-- Decimal rendering helper: pushes the digits of `n` (most significant
first) in front of `acc`. -/
def natToCharsAux : Nat → List Char → List Char
  | 0, acc => acc
  | n + 1, acc => natToCharsAux ((n + 1) / 10) (digitChar ((n + 1) % 10) :: acc)
decreasing_by exact Nat.div_lt_self (Nat.succ_pos _) (by norm_num)

/-- `fmt.Sprintf("%d", n)` for a non-negative count. -/
def natToChars (n : Nat) : List Char :=
  if n = 0 then ['0'] else natToCharsAux n []

/-- `formatNotEnoughArguments` (errors.go). -/
def formatNotEnoughArguments (name : List Char) (count minExpected : Nat)
    (variadic : Bool) : List Char :=
  let more := if variadic then "or more ".data else []
  let only := if variadic then "only ".data else []
  let report := if count = 0 then "none ".data else only ++ (natToChars count ++ " ".data)
  let plural := if 1 < minExpected then "s".data else []
  "invalid arity, the function '".data ++
    (name ++ ("' expects ".data ++
      (natToChars minExpected ++
        (" argument".data ++ (plural ++ (" ".data ++ (more ++
          ("but ".data ++ (report ++ "were supplied".data)))))))))

/-- `formatTooManyArguments` (errors.go). -/
def formatTooManyArguments (name : List Char) (count maxExpected : Nat) : List Char :=
  "invalid arity, the function '".data ++
    (name ++ ("' expects ".data ++
      ("at most ".data ++
        (natToChars maxExpected ++
          (" arguments but ".data ++ (natToChars count ++ " were supplied".data))))))

/-- The per-position type-check loop of `resolveArgs` (part_001): positions
are checked when the spec is non-optional or an argument was supplied
(`i <= len(arguments)-1`); Go indexes `arguments[i]` unconditionally inside
the guard, which panics when a non-optional spec position has no argument
(never reached from the built-in table, whose non-optional specs come first). -/
def resolveArgsLoop (arguments : List Value) : List ArgSpec → Nat → GoResult Unit
  | [], _ => .ok ()
  | spec :: rest, i =>
      if ¬spec.optional = true ∨ i < arguments.length then
        match arguments.get? i with
        | none => .crash
        | some userArg =>
            match spec.typeCheck userArg with
            | .error e => .err e
            | .ok () => resolveArgsLoop arguments rest (i + 1)
      else resolveArgsLoop arguments rest (i + 1)

/-- The trailing variadic loop of `resolveArgs` (part_001): type-check every
argument from position `len(specs)-1` on against the last spec. -/
def variadicCheck (lastArg : ArgSpec) : List Value → Except GoErr Unit
  | [] => .ok ()
  | v :: rest =>
      match lastArg.typeCheck v with
      | .error e => .error e
      | .ok () => variadicCheck lastArg rest

/-- Tail of `resolveArgs` after the arity checks: the positional loop and the
variadic loop. -/
def resolveArgsTail (e : FunctionEntry) (arguments : List Value) : GoResult (List Value) :=
  match resolveArgsLoop arguments e.arguments 0 with
  | .err e' => .err e'
  | .crash => .crash
  | .ok () =>
      match e.arguments.getLast? with
      | none => .crash
      | some lastArg =>
          if lastArg.variadic then
            match variadicCheck lastArg (arguments.drop (e.arguments.length - 1)) with
            | .error e' => .err e'
            | .ok () => .ok arguments
          else .ok arguments

/-- `functionEntry.resolveArgs` (part_001). -/
def resolveArgs (e : FunctionEntry) (arguments : List Value) : GoResult (List Value) :=
  if e.arguments.length = 0 then .ok arguments
  else
    let variadic := isVariadic e.arguments
    let minExpected := getMinExpected e.arguments
    let count := arguments.length
    if count < minExpected then
      .err (.goError (formatNotEnoughArguments e.name count minExpected variadic))
    else
      match getMaxExpected e.arguments with
      | some maxExpected =>
          if maxExpected < count then
            .err (.goError (formatTooManyArguments e.name count maxExpected))
          else resolveArgsTail e arguments
      | none => resolveArgsTail e arguments

/-- The built-in function table of `newFunctionCaller` (part_001), keyed by the
lookup name; note the `map` entry whose `name` field is the misspelled "amp". -/
def functionTable : List (List Char × FunctionEntry) :=
  [("abs".data, ⟨"abs".data, [⟨[.jpNumber], false, false⟩], false⟩),
   ("avg".data, ⟨"avg".data, [⟨[.jpArrayNumber], false, false⟩], false⟩),
   ("ceil".data, ⟨"ceil".data, [⟨[.jpNumber], false, false⟩], false⟩),
   ("contains".data, ⟨"contains".data,
     [⟨[.jpArray, .jpString], false, false⟩, ⟨[.jpAny], false, false⟩], false⟩),
   ("ends_with".data, ⟨"ends_with".data,
     [⟨[.jpString], false, false⟩, ⟨[.jpString], false, false⟩], false⟩),
   ("find_first".data, ⟨"find_first".data,
     [⟨[.jpString], false, false⟩, ⟨[.jpString], false, false⟩,
      ⟨[.jpNumber], false, true⟩, ⟨[.jpNumber], false, true⟩], false⟩),
   ("find_last".data, ⟨"find_last".data,
     [⟨[.jpString], false, false⟩, ⟨[.jpString], false, false⟩,
      ⟨[.jpNumber], false, true⟩, ⟨[.jpNumber], false, true⟩], false⟩),
   ("floor".data, ⟨"floor".data, [⟨[.jpNumber], false, false⟩], false⟩),
   ("join".data, ⟨"join".data,
     [⟨[.jpString], false, false⟩, ⟨[.jpArrayString], false, false⟩], false⟩),
   ("keys".data, ⟨"keys".data, [⟨[.jpObject], false, false⟩], false⟩),
   ("length".data, ⟨"length".data,
     [⟨[.jpString, .jpArray, .jpObject], false, false⟩], false⟩),
   ("lower".data, ⟨"lower".data, [⟨[.jpString], false, false⟩], false⟩),
   ("map".data, ⟨"amp".data,
     [⟨[.jpExpref], false, false⟩, ⟨[.jpArray], false, false⟩], true⟩),
   ("max".data, ⟨"max".data, [⟨[.jpArrayNumber, .jpArrayString], false, false⟩], false⟩),
   ("max_by".data, ⟨"max_by".data,
     [⟨[.jpArray], false, false⟩, ⟨[.jpExpref], false, false⟩], true⟩),
   ("merge".data, ⟨"merge".data, [⟨[.jpObject], true, false⟩], false⟩),
   ("min".data, ⟨"min".data, [⟨[.jpArrayNumber, .jpArrayString], false, false⟩], false⟩),
   ("min_by".data, ⟨"min_by".data,
     [⟨[.jpArray], false, false⟩, ⟨[.jpExpref], false, false⟩], true⟩),
   ("not_null".data, ⟨"not_null".data, [⟨[.jpAny], true, false⟩], false⟩),
   ("pad_left".data, ⟨"pad_left".data,
     [⟨[.jpString], false, false⟩, ⟨[.jpNumber], false, false⟩,
      ⟨[.jpString], false, true⟩], false⟩),
   ("pad_right".data, ⟨"pad_right".data,
     [⟨[.jpString], false, false⟩, ⟨[.jpNumber], false, false⟩,
      ⟨[.jpString], false, true⟩], false⟩),
   ("replace".data, ⟨"replace".data,
     [⟨[.jpString], false, false⟩, ⟨[.jpString], false, false⟩,
      ⟨[.jpString], false, false⟩, ⟨[.jpNumber], false, true⟩], false⟩),
   ("reverse".data, ⟨"reverse".data, [⟨[.jpArray, .jpString], false, false⟩], false⟩),
   ("sort".data, ⟨"sort".data, [⟨[.jpArrayString, .jpArrayNumber], false, false⟩], false⟩),
   ("sort_by".data, ⟨"sort_by".data,
     [⟨[.jpArray], false, false⟩, ⟨[.jpExpref], false, false⟩], true⟩),
   ("starts_with".data, ⟨"starts_with".data,
     [⟨[.jpString], false, false⟩, ⟨[.jpString], false, false⟩], false⟩),
   ("sum".data, ⟨"sum".data, [⟨[.jpArrayNumber], false, false⟩], false⟩),
   ("to_array".data, ⟨"to_array".data, [⟨[.jpAny], false, false⟩], false⟩),
   ("to_number".data, ⟨"to_number".data, [⟨[.jpAny], false, false⟩], false⟩),
   ("to_string".data, ⟨"to_string".data, [⟨[.jpAny], false, false⟩], false⟩),
   ("trim".data, ⟨"trim".data,
     [⟨[.jpString], false, false⟩, ⟨[.jpString], false, true⟩], false⟩),
   ("trim_left".data, ⟨"trim_left".data,
     [⟨[.jpString], false, false⟩, ⟨[.jpString], false, true⟩], false⟩),
   ("trim_right".data, ⟨"trim_right".data,
     [⟨[.jpString], false, false⟩, ⟨[.jpString], false, true⟩], false⟩),
   ("type".data, ⟨"type".data, [⟨[.jpAny], false, false⟩], false⟩),
   ("upper".data, ⟨"upper".data, [⟨[.jpString], false, false⟩], false⟩),
   ("values".data, ⟨"values".data, [⟨[.jpObject], false, false⟩], false⟩)]

theorem digitChar_ne_a (m : Nat) : digitChar m ≠ 'a' := by
  unfold digitChar
  split <;> decide

/-- `natToCharsAux` pushes a nonempty digit run (whose head is a digit, in
particular not the letter a) in front of the accumulator. -/
theorem natToCharsAux_structure : ∀ (n : Nat) (acc : List Char),
    ∃ L, natToCharsAux n acc = L ++ acc ∧ (n ≠ 0 → ∃ d ds, L = d :: ds ∧ d ≠ 'a') := by
  intro n
  induction n using Nat.strong_induction_on with
  | _ n ih =>
    intro acc
    match n with
    | 0 => exact ⟨[], by rw [natToCharsAux, List.nil_append], fun h => absurd rfl h⟩
    | n + 1 =>
      obtain ⟨L, hL, hhead⟩ :=
        ih ((n + 1) / 10) (Nat.div_lt_self (Nat.succ_pos _) (by norm_num))
          (digitChar ((n + 1) % 10) :: acc)
      by_cases hq : (n + 1) / 10 = 0
      · refine ⟨[digitChar ((n + 1) % 10)], ?_, ?_⟩
        · rw [natToCharsAux, hq, natToCharsAux]
          rfl
        · intro _
          exact ⟨digitChar ((n + 1) % 10), [], rfl, digitChar_ne_a _⟩
      · obtain ⟨d, ds, hds, hda⟩ := hhead hq
        refine ⟨L ++ [digitChar ((n + 1) % 10)], ?_, ?_⟩
        · rw [natToCharsAux, hL]
          simp
        · intro _
          exact ⟨d, ds ++ [digitChar ((n + 1) % 10)], by simp [hds], hda⟩

/-- The decimal rendering of any count starts with a digit (not the letter a). -/
theorem natToChars_head (n : Nat) : ∃ d ds, natToChars n = d :: ds ∧ d ≠ 'a' := by
  unfold natToChars
  by_cases h : n = 0
  · exact ⟨'0', [], by simp [h], by decide⟩
  · obtain ⟨L, hL, hhead⟩ := natToCharsAux_structure n []
    obtain ⟨d, ds, hds, hda⟩ := hhead h
    exact ⟨d, ds, by simp [h, hL, hds], hda⟩

theorem typeCheck_error_is_invalidType (a : ArgSpec) (arg : Value) (e : GoErr)
    (h : a.typeCheck arg = .error e) : e = GoErr.invalidType := by
  unfold ArgSpec.typeCheck at h
  by_cases hc : a.types.any fun t => typeCheckOne t arg
  · rw [if_pos hc] at h; exact Except.noConfusion h
  · rw [if_neg hc] at h
    injection h with h
    exact h.symm

theorem resolveArgsLoop_shape (arguments : List Value) :
    ∀ (specs : List ArgSpec) (i : Nat),
      resolveArgsLoop arguments specs i = .ok () ∨
      resolveArgsLoop arguments specs i = .err .invalidType ∨
      resolveArgsLoop arguments specs i = .crash := by
  intro specs
  induction specs with
  | nil => intro i; exact Or.inl rfl
  | cons spec rest ih =>
    intro i
    simp only [resolveArgsLoop]
    by_cases hc : ¬spec.optional = true ∨ i < arguments.length
    · rw [if_pos hc]
      cases harg : arguments.get? i with
      | none => exact Or.inr (Or.inr rfl)
      | some userArg =>
        cases htc : spec.typeCheck userArg with
        | error err =>
          have heq := typeCheck_error_is_invalidType spec userArg err htc
          subst heq
          simp [htc]
        | ok u =>
          cases u
          simp only [htc]
          exact ih (i + 1)
    · rw [if_neg hc]
      exact ih (i + 1)

theorem variadicCheck_shape (lastArg : ArgSpec) :
    ∀ (vs : List Value),
      variadicCheck lastArg vs = .ok () ∨ variadicCheck lastArg vs = .error .invalidType := by
  intro vs
  induction vs with
  | nil => exact Or.inl rfl
  | cons v rest ih =>
    simp only [variadicCheck]
    cases htc : lastArg.typeCheck v with
    | error err =>
      have heq := typeCheck_error_is_invalidType lastArg v err htc
      subst heq
      simp [htc]
    | ok u =>
      cases u
      simp only [htc]
      exact ih

theorem resolveArgsTail_shape (e : FunctionEntry) (args : List Value) :
    resolveArgsTail e args = .ok args ∨
    resolveArgsTail e args = .err .invalidType ∨
    resolveArgsTail e args = .crash := by
  unfold resolveArgsTail
  rcases resolveArgsLoop_shape args e.arguments 0 with h | h | h <;> rw [h]
  · cases hlast : e.arguments.getLast? with
    | none => exact Or.inr (Or.inr rfl)
    | some lastArg =>
      by_cases hv : lastArg.variadic
      · simp only [if_pos hv]
        rcases variadicCheck_shape lastArg (args.drop (e.arguments.length - 1)) with h2 | h2 <;>
          simp [h2]
      · simp [if_neg hv]
  · exact Or.inr (Or.inl rfl)
  · exact Or.inr (Or.inr rfl)

/-- The two arity messages are distinct for every combination of counts: after
the common prefix naming the function, the "not enough" message continues with
a digit while the "too many" message continues with "at most". -/
theorem formatNotEnough_ne_formatTooMany (name : List Char) (c1 c2 minE maxE : Nat)
    (v : Bool) :
    formatNotEnoughArguments name c1 minE v ≠ formatTooManyArguments name c2 maxE := by
  intro h
  simp only [formatNotEnoughArguments, formatTooManyArguments] at h
  have h1 := List.append_cancel_left h
  have h2 := List.append_cancel_left h1
  have h3 := List.append_cancel_left h2
  obtain ⟨d, ds, hds, hda⟩ := natToChars_head minE
  rw [hds] at h3
  simp only [List.cons_append] at h3
  injection h3 with hd _
  exact hda hd

/-- Both parts claimed to be named by the "not enough arguments" message are
present in it: the function name, the expected count, and (when nonzero) the
received count. -/
theorem formatNotEnough_infixes (name : List Char) (c minE : Nat) (v : Bool) :
    List.IsInfix name (formatNotEnoughArguments name c minE v) ∧
    List.IsInfix (natToChars minE) (formatNotEnoughArguments name c minE v) ∧
    (c ≠ 0 → List.IsInfix (natToChars c) (formatNotEnoughArguments name c minE v)) := by
  refine ⟨⟨"invalid arity, the function '".data, _,
      by simp only [formatNotEnoughArguments, List.append_assoc]; rfl⟩,
    ⟨"invalid arity, the function '".data ++ name ++ "' expects ".data, _,
      by simp only [formatNotEnoughArguments, List.append_assoc]; rfl⟩,
    fun hc =>
    ⟨"invalid arity, the function '".data ++ name ++ "' expects ".data ++
        natToChars minE ++ " argument".data ++
        (if 1 < minE then "s".data else []) ++ " ".data ++
        (if v then "or more ".data else []) ++ "but ".data ++
        (if v then "only ".data else []),
      " ".data ++ "were supplied".data, ?_⟩⟩
  simp only [formatNotEnoughArguments, if_neg hc, List.append_assoc]

/-- Both parts claimed to be named by the "too many arguments" message are
present in it: the function name, the maximum count, and the received count. -/
theorem formatTooMany_infixes (name : List Char) (c maxE : Nat) :
    List.IsInfix name (formatTooManyArguments name c maxE) ∧
    List.IsInfix (natToChars maxE) (formatTooManyArguments name c maxE) ∧
    List.IsInfix (natToChars c) (formatTooManyArguments name c maxE) := by
  refine ⟨⟨"invalid arity, the function '".data, _,
      by simp only [formatTooManyArguments, List.append_assoc]; rfl⟩,
    ⟨"invalid arity, the function '".data ++ name ++ "' expects ".data ++ "at most ".data, _,
      by simp only [formatTooManyArguments, List.append_assoc]; rfl⟩,
    ⟨"invalid arity, the function '".data ++ name ++ "' expects ".data ++ "at most ".data ++
        natToChars maxE ++ " arguments but ".data,
      " were supplied".data,
      by simp only [formatTooManyArguments, List.append_assoc]⟩⟩

/-- **C7 (amended).** For every entry of the built-in table and every argument
list: the call is rejected with the "not enough arguments" error exactly when
the count is below `min_expected` (the number of non-optional specs); a
non-variadic signature is additionally rejected with the "too many arguments"
error when the count exceeds the number of specs; otherwise — in particular
for a variadic signature with any count at or above `min_expected` — no arity
error is produced (the call can only yield an argument-type error).  The two
arity messages are distinct for all counts, and each names the entry's declared
function name (for the `map` entry that field is the misspelled "amp", see the
counterexample), the expected count, and the received count (the latter
rendered "none" when zero). -/
theorem C7_arity (key : List Char) (e : FunctionEntry)
    (he : (key, e) ∈ functionTable) (args : List Value) :
    (args.length < getMinExpected e.arguments →
      resolveArgs e args = .err (.goError (formatNotEnoughArguments e.name args.length
        (getMinExpected e.arguments) (isVariadic e.arguments)))) ∧
    (getMinExpected e.arguments ≤ args.length → isVariadic e.arguments = false →
      e.arguments.length < args.length →
      resolveArgs e args = .err (.goError (formatTooManyArguments e.name args.length
        e.arguments.length))) ∧
    (getMinExpected e.arguments ≤ args.length →
      (isVariadic e.arguments = true ∨ args.length ≤ e.arguments.length) →
      ∀ msg, resolveArgs e args ≠ .err (.goError msg)) ∧
    (∀ c1 c2, formatNotEnoughArguments e.name c1 (getMinExpected e.arguments)
        (isVariadic e.arguments) ≠ formatTooManyArguments e.name c2 e.arguments.length) ∧
    (∀ c, List.IsInfix e.name (formatNotEnoughArguments e.name c (getMinExpected e.arguments)
        (isVariadic e.arguments)) ∧
      List.IsInfix (natToChars (getMinExpected e.arguments))
        (formatNotEnoughArguments e.name c (getMinExpected e.arguments)
          (isVariadic e.arguments)) ∧
      (c ≠ 0 → List.IsInfix (natToChars c)
        (formatNotEnoughArguments e.name c (getMinExpected e.arguments)
          (isVariadic e.arguments)))) ∧
    (∀ c, List.IsInfix e.name (formatTooManyArguments e.name c e.arguments.length) ∧
      List.IsInfix (natToChars e.arguments.length)
        (formatTooManyArguments e.name c e.arguments.length) ∧
      List.IsInfix (natToChars c) (formatTooManyArguments e.name c e.arguments.length)) := by
  have hnonempty : ∀ p ∈ functionTable, p.2.arguments ≠ [] := by decide
  have hne : e.arguments ≠ [] := hnonempty (key, e) he
  have hlen0 : ¬(e.arguments.length = 0) := by simpa [List.length_eq_zero] using hne
  refine ⟨?_, ?_, ?_, ?_, ?_, ?_⟩
  · intro hlt
    simp only [resolveArgs, if_neg hlen0, if_pos hlt]
  · intro hge hnv hmax
    have hmaxE : getMaxExpected e.arguments = some e.arguments.length := by
      simp [getMaxExpected, hnv]
    simp only [resolveArgs, if_neg hlen0, if_neg (not_lt.mpr hge), hmaxE, if_pos hmax]
  · intro hge hvo msg hcontra
    have habs : resolveArgsTail e args = .err (.goError msg) → False := by
      intro h
      rcases resolveArgsTail_shape e args with h2 | h2 | h2 <;>
        rw [h2] at h <;> simp at h
    rcases hvo with hv | hle
    · have hmaxE : getMaxExpected e.arguments = none := by
        simp [getMaxExpected, hv]
      rw [resolveArgs] at hcontra
      rw [if_neg hlen0, if_neg (not_lt.mpr hge), hmaxE] at hcontra
      exact habs hcontra
    · by_cases hv : isVariadic e.arguments
      · have hmaxE : getMaxExpected e.arguments = none := by
          simp [getMaxExpected, hv]
        rw [resolveArgs] at hcontra
        rw [if_neg hlen0, if_neg (not_lt.mpr hge), hmaxE] at hcontra
        exact habs hcontra
      · have hmaxE : getMaxExpected e.arguments = some e.arguments.length := by
          simp [getMaxExpected, hv]
        rw [resolveArgs] at hcontra
        rw [if_neg hlen0, if_neg (not_lt.mpr hge), hmaxE] at hcontra
        dsimp only at hcontra
        rw [if_neg (not_lt.mpr hle)] at hcontra
        exact habs hcontra
  · intro c1 c2
    exact formatNotEnough_ne_formatTooMany e.name c1 c2 _ _ _
  · intro c
    exact formatNotEnough_infixes e.name c (getMinExpected e.arguments) (isVariadic e.arguments)
  · intro c
    exact formatTooMany_infixes e.name c e.arguments.length

theorem C7_arity_witness :
    ("merge".data, (⟨"merge".data, [⟨[.jpObject], true, false⟩], false⟩ : FunctionEntry))
        ∈ functionTable ∧
    resolveArgs ⟨"merge".data, [⟨[.jpObject], true, false⟩], false⟩ []
      = .err (.goError (formatNotEnoughArguments "merge".data 0 1 true)) := by
  have h := C7_arity "merge".data ⟨"merge".data, [⟨[.jpObject], true, false⟩], false⟩
    (by decide) []
  exact ⟨by decide, h.1 (by decide)⟩

/-- **C7 counterexample.** The table entry registered under the lookup key
"map" carries the misspelled name field "amp", so its arity message does not
name the function map: calling `map()` with no arguments yields "invalid
arity, the function 'amp' expects 2 arguments but none were supplied". -/
theorem C7_counterexample :
    functionTable.lookup "map".data
      = some ⟨"amp".data, [⟨[.jpExpref], false, false⟩, ⟨[.jpArray], false, false⟩], true⟩ ∧
    resolveArgs ⟨"amp".data, [⟨[.jpExpref], false, false⟩, ⟨[.jpArray], false, false⟩], true⟩ []
      = .err (.goError (formatNotEnoughArguments "amp".data 0 2 false)) ∧
    ¬ List.IsInfix "map".data (formatNotEnoughArguments "amp".data 0 2 false) := by
  have hmsg : formatNotEnoughArguments "amp".data 0 2 false
      = "invalid arity, the function 'amp' expects 2 arguments but none were supplied".data := by
    have h2 : natToChars 2 = ['2'] := by simp [natToChars, natToCharsAux, digitChar]
    simp only [formatNotEnoughArguments, h2]
    norm_num
  refine ⟨by decide, rfl, ?_⟩
  rw [hmsg]
  decide

/-! ## sort_by (part_001)

`jpfSortBy` wraps the item slice in a `byExprFloat`/`byExprString` comparator
and calls `sort.Stable` on it, returning the same slice.  `sort.Stable` on a
slice of at most 20 elements performs exactly the adjacent-swap insertion sort
below (`insertionSort` on one block); on longer slices it merges such blocks
with adjacent swaps, producing the same stable order whenever the comparator
is consistent.  The insertion sort is used as the model of `sort.Stable`; the
theorems proved about it (a permutation of the input is produced in place)
hold for any algorithm built from `Swap`/`Less` calls within bounds.
`Execute` is modelled by the evaluation closure `eval`, as for `map`. -/

/-- Lexicographic Go string comparison `<`. -/
def goStrLt : List Char → List Char → Bool
  | [], [] => false
  | [], _ :: _ => true
  | _ :: _, [] => false
  | a :: as, b :: bs => if a < b then true else if b < a then false else goStrLt as bs

/-- `byExprFloat.Less` (part_001): evaluate the key expression on the items at
`i` and `j`; any error or non-float key records the sticky `hasError` flag
(second component `true`) and returns a dummy `true`. -/
def byExprFloatLess (eval : Value → Except GoErr Value) (items : List Value)
    (i j : Nat) : Bool × Bool :=
  match eval (items.getD i Value.null) with
  | .error _ => (true, true)
  | .ok first =>
    match first with
    | .number ith =>
      match eval (items.getD j Value.null) with
      | .error _ => (true, true)
      | .ok second =>
        match second with
        | .number jth => (GoFloat.lt ith jth, false)
        | _ => (true, true)
    | _ => (true, true)

/-- `byExprString.Less` (part_001): the string analogue of `byExprFloatLess`. -/
def byExprStringLess (eval : Value → Except GoErr Value) (items : List Value)
    (i j : Nat) : Bool × Bool :=
  match eval (items.getD i Value.null) with
  | .error _ => (true, true)
  | .ok first =>
    match first with
    | .str ith =>
      match eval (items.getD j Value.null) with
      | .error _ => (true, true)
      | .ok second =>
        match second with
        | .str jth => (goStrLt ith jth, false)
        | _ => (true, true)
    | _ => (true, true)

/-- One `Swap(i, j)` of the `sort.Interface` implementations (part_001):
exchange two positions of the item slice in place. -/
def goSwap (l : List Value) (i j : Nat) : List Value :=
  (l.set i (l.getD j Value.null)).set j (l.getD i Value.null)

/-- Inner loop of the insertion sort performed by `sort.Stable`:
`for j := i; j > 0 && data.Less(j, j-1); j-- { data.Swap(j, j-1) }`.
The state is the item slice plus the comparator's sticky `hasError` flag. -/
def insertionSortInner (less : List Value → Nat → Nat → Bool × Bool) :
    Nat → List Value × Bool → List Value × Bool
  | 0, st => st
  | j + 1, (items, hasError) =>
    let p := less items (j + 1) j
    let hasError := hasError || p.2
    if p.1 then insertionSortInner less j (goSwap items (j + 1) j, hasError)
    else (items, hasError)

/-- Outer loop of the insertion sort: positions `i = 1 … n-1`, expressed with
the remaining iteration count as fuel. -/
def sortStableAux (less : List Value → Nat → Nat → Bool × Bool) :
    Nat → Nat → List Value × Bool → List Value × Bool
  | 0, _, st => st
  | fuel + 1, i, st => sortStableAux less fuel (i + 1) (insertionSortInner less i st)

/-- Model of `sort.Stable` over a byExpr comparator (see the section comment). -/
def sortStable (less : List Value → Nat → Nat → Bool × Bool) (items : List Value) :
    List Value × Bool :=
  sortStableAux less (items.length - 1) 1 (items, false)

/-- `jpfSortBy` (part_001).  The second component of the result is the content
of the argument slice after the call: `sort.Stable(sortable)` reorders `arr`
itself and `return arr, nil` returns that same slice. -/
def jpfSortBy (eval : Value → Except GoErr Value) (arr : List Value) :
    Except GoErr (List Value) × List Value :=
  if arr.length = 0 then (.ok arr, arr)
  else if arr.length = 1 then (.ok arr, arr)
  else
    match eval (arr.getD 0 Value.null) with
    | .error e => (.error e, arr)
    | .ok start =>
      match start with
      | .number _ =>
          let st := sortStable (byExprFloatLess eval) arr
          if st.2 then (.error (.goError "error in sort_by comparison".data), st.1)
          else (.ok st.1, st.1)
      | .str _ =>
          let st := sortStable (byExprStringLess eval) arr
          if st.2 then (.error (.goError "error in sort_by comparison".data), st.1)
          else (.ok st.1, st.1)
      | _ => (.error (.goError "invalid type, must be number of string".data), arr)

/-- An adjacent swap within bounds permutes the list. -/
theorem goSwap_adj_perm : ∀ (l : List Value) (j : Nat), j + 1 < l.length →
    (goSwap l (j + 1) j).Perm l := by
  intro l j
  induction j generalizing l with
  | zero =>
    intro h
    match l, h with
    | a :: b :: t, _ =>
      simpa [goSwap] using List.Perm.swap a b t
  | succ j ih =>
    intro h
    match l, h with
    | x :: t, h =>
      have ht : j + 1 < t.length := by simpa using h
      show (goSwap (x :: t) (j + 2) (j + 1)).Perm (x :: t)
      have : goSwap (x :: t) (j + 2) (j + 1) = x :: goSwap t (j + 1) j := by
        simp [goSwap]
      rw [this]
      exact (ih t ht).cons x

theorem goSwap_length (l : List Value) (i j : Nat) : (goSwap l i j).length = l.length := by
  simp [goSwap]

/-- The inner insertion-sort loop permutes the items (and leaves the length
unchanged) whenever it starts within bounds. -/
theorem insertionSortInner_perm (less : List Value → Nat → Nat → Bool × Bool) :
    ∀ (j : Nat) (items : List Value) (he : Bool), j < items.length →
      ((insertionSortInner less j (items, he)).1).Perm items := by
  intro j
  induction j with
  | zero => intro items he _; exact List.Perm.refl _
  | succ j ih =>
    intro items he hj
    simp only [insertionSortInner]
    by_cases hb : (less items (j + 1) j).1
    · rw [if_pos hb]
      have hswap := goSwap_adj_perm items j hj
      have hlen : j < (goSwap items (j + 1) j).length := by
        rw [goSwap_length]; omega
      exact ((ih (goSwap items (j + 1) j) _ hlen).trans hswap)
    · rw [if_neg hb]

/-- The outer loop permutes the items while the iteration stays within
bounds. -/
theorem sortStableAux_perm (less : List Value → Nat → Nat → Bool × Bool) :
    ∀ (fuel i : Nat) (items : List Value) (he : Bool), fuel + i ≤ items.length →
      ((sortStableAux less fuel i (items, he)).1).Perm items := by
  intro fuel
  induction fuel with
  | zero => intro i items he _; exact List.Perm.refl _
  | succ fuel ih =>
    intro i items he hb
    simp only [sortStableAux]
    have hi : i < items.length := by omega
    have hinner := insertionSortInner_perm less i items he hi
    have hlen := hinner.length_eq
    rcases hst : insertionSortInner less i (items, he) with ⟨items', he'⟩
    rw [hst] at hinner hlen
    simp only at hinner hlen
    have hnext := ih (i + 1) items' he' (by omega)
    exact hnext.trans hinner

/-- `sortStable` permutes its input. -/
theorem sortStable_perm (less : List Value → Nat → Nat → Bool × Bool)
    (items : List Value) : ((sortStable less items).1).Perm items := by
  unfold sortStable
  by_cases h : items.length = 0
  · rw [h]
    exact List.Perm.refl _
  · exact sortStableAux_perm less (items.length - 1) 1 items false (by omega)

/-- Modelled from the spec: current-node evaluation (`@`) — "*CurrentNode*
returns current" (§4.3); used as a concrete key expression for `sort_by`. -/
def evalCurrent : Value → Except GoErr Value := fun v => .ok v

/-- **C2 counterexample.** `sort_by([2, 1], &@)` sorts the slice it received
in place: after the call the caller's array holds `[1, 2]`, not its original
element order `[2, 1]` — evaluation mutated the input data. -/
theorem C2_counterexample :
    (jpfSortBy evalCurrent
        [Value.number (GoFloat.finite 2), Value.number (GoFloat.finite 1)]).2
      = [Value.number (GoFloat.finite 1), Value.number (GoFloat.finite 2)] ∧
    (jpfSortBy evalCurrent
        [Value.number (GoFloat.finite 2), Value.number (GoFloat.finite 1)]).2
      ≠ [Value.number (GoFloat.finite 2), Value.number (GoFloat.finite 1)] := by
  constructor
  · rfl
  · rw [show (jpfSortBy evalCurrent
        [Value.number (GoFloat.finite 2), Value.number (GoFloat.finite 1)]).2
      = [Value.number (GoFloat.finite 1), Value.number (GoFloat.finite 2)] from rfl]
    intro h
    have h1 := List.head_eq_of_cons_eq h
    injection h1 with h2
    injection h2 with h3
    norm_num at h3

/-- **C2 (amended).** Built-in evaluation does not mutate input data except
through `sort_by` (and its comparators): `sort_by` reorders the array it
receives in place and returns that very array.  After any call the received
array holds a permutation of its original contents — the sorted order rather
than the original order — and whenever the call succeeds the returned array is
exactly the received array's final content. -/
theorem C2_sortBy_in_place (eval : Value → Except GoErr Value) (arr : List Value) :
    ((jpfSortBy eval arr).2).Perm arr ∧
    (∀ l, (jpfSortBy eval arr).1 = .ok l → l = (jpfSortBy eval arr).2) := by
  unfold jpfSortBy
  by_cases h0 : arr.length = 0
  · simp only [if_pos h0]
    exact ⟨List.Perm.refl _, fun l hl => by injection hl with h; exact h.symm⟩
  · simp only [if_neg h0]
    by_cases h1 : arr.length = 1
    · simp only [if_pos h1]
      exact ⟨List.Perm.refl _, fun l hl => by injection hl with h; exact h.symm⟩
    · simp only [if_neg h1]
      cases heval : eval (arr.getD 0 Value.null) with
      | error e =>
        exact ⟨List.Perm.refl _, fun l hl => by simp at hl⟩
      | ok start =>
        cases start with
        | number x =>
          by_cases herr : (sortStable (byExprFloatLess eval) arr).2
          · simp only [if_pos herr]
            exact ⟨sortStable_perm _ arr, fun l hl => by simp at hl⟩
          · simp only [if_neg herr]
            exact ⟨sortStable_perm _ arr,
              fun l hl => by injection hl with h; exact h.symm⟩
        | str s =>
          by_cases herr : (sortStable (byExprStringLess eval) arr).2
          · simp only [if_pos herr]
            exact ⟨sortStable_perm _ arr, fun l hl => by simp at hl⟩
          · simp only [if_neg herr]
            exact ⟨sortStable_perm _ arr,
              fun l hl => by injection hl with h; exact h.symm⟩
        | null => exact ⟨List.Perm.refl _, fun l hl => by simp at hl⟩
        | bool b => exact ⟨List.Perm.refl _, fun l hl => by simp at hl⟩
        | array a => exact ⟨List.Perm.refl _, fun l hl => by simp at hl⟩
        | object o => exact ⟨List.Perm.refl _, fun l hl => by simp at hl⟩
        | expref r => exact ⟨List.Perm.refl _, fun l hl => by simp at hl⟩

theorem C2_sortBy_in_place_witness :
    ((jpfSortBy evalCurrent
        [Value.number (GoFloat.finite 2), Value.number (GoFloat.finite 1)]).2).Perm
      [Value.number (GoFloat.finite 2), Value.number (GoFloat.finite 1)] ∧
    [Value.number (GoFloat.finite 1), Value.number (GoFloat.finite 2)]
      = (jpfSortBy evalCurrent
          [Value.number (GoFloat.finite 2), Value.number (GoFloat.finite 1)]).2 :=
  ⟨(C2_sortBy_in_place evalCurrent
      [Value.number (GoFloat.finite 2), Value.number (GoFloat.finite 1)]).1,
   (C2_sortBy_in_place evalCurrent
      [Value.number (GoFloat.finite 2), Value.number (GoFloat.finite 1)]).2
      [Value.number (GoFloat.finite 1), Value.number (GoFloat.finite 2)] (by rfl)⟩

/-! ## Lexer (lexer.go)

The lexer state is represented by the list of characters not yet consumed;
Go's `currentPos` (a byte offset, maintained through `next`/`back` as the
number of bytes consumed) is recovered at any point as
`total − utf8Len rest`, where `total` is the byte length of the expression.
The main `tokenize` loop takes a fuel argument to make the recursion
structural; `tokenize` supplies `length + 1` fuel, which is never exhausted
since every iteration consumes at least one character
(`tokenizeLoop_fuel_sufficient`). -/

/-- Go byte length of a character sequence. -/
def utf8Len (s : List Char) : Nat := (s.map Char.utf8Size).sum

/-- `tokType` (lexer.go).  `tAnd` and `tNot` appear in the binding-power table
of parser.go's first parser; the lexer edition defining them is not under
src/, and the lexer here (lexer.go) never emits them. -/
inductive TokType where
  | tUnknown
  | tStar
  | tDot
  | tFilter
  | tFlatten
  | tLparen
  | tRparen
  | tLbracket
  | tRbracket
  | tLbrace
  | tRbrace
  | tOr
  | tPipe
  | tNumber
  | tUnquotedIdentifier
  | tQuotedIdentifier
  | tComma
  | tColon
  | tLT
  | tLTE
  | tGT
  | tGTE
  | tEQ
  | tNE
  | tJSONLiteral
  | tStringLiteral
  | tCurrent
  | tExpref
  | tEOF
  | tAnd
  | tNot
deriving DecidableEq, Repr

/-- `token` (lexer.go): kind, literal text, byte offset, byte length. -/
structure Token where
  tokenType : TokType
  value : List Char
  position : Nat
  length : Nat
deriving DecidableEq, Repr

/-- `basicTokens` (lexer.go): the single-character tokens. -/
def basicToken : Char → Option TokType
  | '.' => some .tDot
  | '*' => some .tStar
  | ',' => some .tComma
  | ':' => some .tColon
  | '{' => some .tLbrace
  | '}' => some .tRbrace
  | ']' => some .tRbracket
  | '(' => some .tLparen
  | ')' => some .tRparen
  | '@' => some .tCurrent
  | '&' => some .tExpref
  | _ => none

/-- `identifierStart` (lexer.go): `[A-Za-z_]` (the Go map enumerates exactly
these characters). -/
def identifierStartChar (c : Char) : Bool :=
  (decide ('a' ≤ c) && decide (c ≤ 'z')) || (decide ('A' ≤ c) && decide (c ≤ 'Z')) || c = '_'

/-- `identifierTrailing` (lexer.go): `[A-Za-z0-9_]`. -/
def identifierTrailingChar (c : Char) : Bool :=
  identifierStartChar c || (decide ('0' ≤ c) && decide (c ≤ '9'))

/-- `whiteSpace` (lexer.go). -/
def whiteSpaceChar (c : Char) : Bool :=
  c = ' ' || c = '\t' || c = '\n' || c = '\r'

/-- The consume-while pattern of `consumeUnquotedIdentifier`/`consumeNumber`:
take the longest prefix satisfying `p`, returning it and the rest. -/
def spanChars (p : Char → Bool) : List Char → List Char × List Char
  | [] => ([], [])
  | c :: cs =>
      if p c then
        let r := spanChars p cs
        (c :: r.1, r.2)
      else ([], c :: cs)

/-- `consumeUnquotedIdentifier` (lexer.go): `r` is the already-consumed first
character; the token's position is the byte offset of `r`. -/
def consumeUnquotedIdentifier (total : Nat) (r : Char) (rs : List Char) :
    Token × List Char :=
  let s := spanChars identifierTrailingChar rs
  let value := r :: s.1
  (⟨.tUnquotedIdentifier, value, total - utf8Len (r :: rs), utf8Len value⟩, s.2)

/-- `consumeNumber` (lexer.go): like the identifier case but over `[0-9]`
(the leading `-` or digit `r` was consumed by the main loop). -/
def consumeNumber (total : Nat) (r : Char) (rs : List Char) : Token × List Char :=
  let s := spanChars (fun c => decide ('0' ≤ c) && decide (c ≤ '9')) rs
  let value := r :: s.1
  (⟨.tNumber, value, total - utf8Len (r :: rs), utf8Len value⟩, s.2)

/-- `consumeLBracket` (lexer.go): `[?` → Filter, `[]` → Flatten, else a bare
`[`. -/
def consumeLBracket (total : Nat) (rs : List Char) : Token × List Char :=
  let start := total - utf8Len rs - 1
  match rs with
  | '?' :: rest => (⟨.tFilter, "[?".data, start, 2⟩, rest)
  | ']' :: rest => (⟨.tFlatten, "[]".data, start, 2⟩, rest)
  | _ => (⟨.tLbracket, "[".data, start, 1⟩, rs)

/-- `matchOrElse` (lexer.go): a two-character token with a one-character
fallback. -/
def matchOrElse (total : Nat) (first second : Char) (matchedType singleCharType : TokType)
    (rs : List Char) : Token × List Char :=
  let start := total - utf8Len rs - first.utf8Size
  match rs with
  | c :: rest =>
      if c = second then (⟨matchedType, [first, second], start, 2⟩, rest)
      else (⟨singleCharType, [first], start, 1⟩, c :: rest)
  | [] => (⟨singleCharType, [first], start, 1⟩, [])

/-- `consumeUntil` (lexer.go): consume characters until the ending rune,
skipping a character after each backslash; `none` when the end of the
expression is reached first.  Returns the matched content (closing rune
excluded) and the remaining characters after it. -/
def consumeUntil (endc : Char) : List Char → Option (List Char × List Char)
  | [] => none
  | c :: cs =>
      if c = endc then some ([], cs)
      else if c = '\\' then
        match cs with
        | [] => none
        | d :: ds =>
            (consumeUntil endc ds).map fun r => (c :: d :: r.1, r.2)
      else (consumeUntil endc cs).map fun r => (c :: r.1, r.2)

/-- `strings.Replace(value, "\\`", "`", -1)` in `consumeLiteral`. -/
def unescapeBacktick : List Char → List Char
  | [] => []
  | '\\' :: '`' :: rest => '`' :: unescapeBacktick rest
  | c :: rest => c :: unescapeBacktick rest

/-- The loop of `consumeRawStringLiteral` (lexer.go): collect characters until
an unescaped single quote, turning each `\'` into `'`; `none` when the end of
the input is reached before a closing quote (the `lastWidth == 0` check, which
observes the final `peek`).  Returns the decoded value and the remaining
characters after the closing quote. -/
def rawStringLoop : List Char → Option (List Char × List Char)
  | [] => none
  | c :: cs =>
      if c = '\'' then some ([], cs)
      else
        match cs with
        | [] => none
        | d :: ds =>
            if c = '\\' && d = '\'' then
              (rawStringLoop ds).map fun r => ('\'' :: r.1, r.2)
            else
              (rawStringLoop (d :: ds)).map fun r => (c :: r.1, r.2)

/-- Hexadecimal digit value. -/
def hexVal (c : Char) : Option Nat :=
  if decide ('0' ≤ c) && decide (c ≤ '9') then some (c.toNat - 48)
  else if decide ('a' ≤ c) && decide (c ≤ 'f') then some (c.toNat - 87)
  else if decide ('A' ≤ c) && decide (c ≤ 'F') then some (c.toNat - 55)
  else none

/-- Modelled from the stdlib: the JSON string-content decoder applied by
`json.Unmarshal` in `consumeQuotedIdentifier` (the decoder itself is in Go's
encoding/json, not in this repository).  Standard escapes and `\uXXXX` with
surrogate pairing are decoded; an invalid or lone surrogate half becomes
U+FFFD as in Go; control characters and invalid escapes are errors. -/
def jsonDecodeString : Nat → List Char → Option (List Char)
  | 0, _ => none
  | _, [] => some []
  | fuel + 1, c :: cs =>
      if c = '\\' then
        match cs with
        | '"' :: rest => (jsonDecodeString fuel rest).map fun r => '"' :: r
        | '\\' :: rest => (jsonDecodeString fuel rest).map fun r => '\\' :: r
        | '/' :: rest => (jsonDecodeString fuel rest).map fun r => '/' :: r
        | 'b' :: rest => (jsonDecodeString fuel rest).map fun r => Char.ofNat 8 :: r
        | 'f' :: rest => (jsonDecodeString fuel rest).map fun r => Char.ofNat 12 :: r
        | 'n' :: rest => (jsonDecodeString fuel rest).map fun r => '\n' :: r
        | 'r' :: rest => (jsonDecodeString fuel rest).map fun r => '\r' :: r
        | 't' :: rest => (jsonDecodeString fuel rest).map fun r => '\t' :: r
        | 'u' :: h1 :: h2 :: h3 :: h4 :: rest =>
            match hexVal h1, hexVal h2, hexVal h3, hexVal h4 with
            | some a, some b, some g, some d =>
                let v := ((a * 16 + b) * 16 + g) * 16 + d
                if 0xD800 ≤ v ∧ v < 0xDC00 then
                  match rest with
                  | '\\' :: 'u' :: k1 :: k2 :: k3 :: k4 :: rest2 =>
                      match hexVal k1, hexVal k2, hexVal k3, hexVal k4 with
                      | some a2, some b2, some g2, some d2 =>
                          let w := ((a2 * 16 + b2) * 16 + g2) * 16 + d2
                          if 0xDC00 ≤ w ∧ w < 0xE000 then
                            (jsonDecodeString fuel rest2).map fun r =>
                              Char.ofNat (0x10000 + (v - 0xD800) * 0x400 + (w - 0xDC00)) :: r
                          else
                            (jsonDecodeString fuel rest).map fun r => Char.ofNat 0xFFFD :: r
                      | _, _, _, _ =>
                          (jsonDecodeString fuel rest).map fun r => Char.ofNat 0xFFFD :: r
                  | _ => (jsonDecodeString fuel rest).map fun r => Char.ofNat 0xFFFD :: r
                else if 0xDC00 ≤ v ∧ v < 0xE000 then
                  (jsonDecodeString fuel rest).map fun r => Char.ofNat 0xFFFD :: r
                else (jsonDecodeString fuel rest).map fun r => Char.ofNat v :: r
            | _, _, _, _ => none
        | _ => none
      else if c.toNat < 0x20 then none
      else (jsonDecodeString fuel cs).map fun r => c :: r

/-- The main loop of `tokenize` (lexer.go), one iteration per call of
`lexer.next()` at the top of the Go `for` loop.  The quoting performed by
`strconv.QuoteRuneToASCII` in the unknown-character message is elided.  The
tokens produced so far are threaded as `tokens`; the result is `none` only on
fuel exhaustion, which `tokenize`'s fuel choice avoids. -/
def tokenizeLoop (expression : List Char) (total : Nat) :
    Nat → List Char → List Token → Option (Except GoErr (List Token))
  | 0, _, _ => none
  | _ + 1, [], tokens => some (.ok (tokens ++ [⟨.tEOF, [], total, 0⟩]))
  | fuel + 1, r :: rs, tokens =>
      if identifierStartChar r then
        let s := consumeUnquotedIdentifier total r rs
        tokenizeLoop expression total fuel s.2 (tokens ++ [s.1])
      else
        match basicToken r with
        | some val =>
            tokenizeLoop expression total fuel rs
              (tokens ++ [⟨val, [r], total - utf8Len (r :: rs), 1⟩])
        | none =>
          if r = '-' || (decide ('0' ≤ r) && decide (r ≤ '9')) then
            let s := consumeNumber total r rs
            tokenizeLoop expression total fuel s.2 (tokens ++ [s.1])
          else if r = '[' then
            let s := consumeLBracket total rs
            tokenizeLoop expression total fuel s.2 (tokens ++ [s.1])
          else if r = '"' then
            match consumeUntil '"' rs with
            | none => some (.error (.synErr ("Unclosed delimiter: \"").data expression total))
            | some vr =>
                match jsonDecodeString (vr.1.length + 1) vr.1 with
                | none => some (.error (.goError "invalid json string".data))
                | some decoded =>
                    tokenizeLoop expression total fuel vr.2
                      (tokens ++ [⟨.tQuotedIdentifier, decoded,
                        total - utf8Len rs - 1, utf8Len decoded⟩])
          else if r = '\'' then
            match rawStringLoop rs with
            | none => some (.error (.synErr "Unclosed delimiter: '".data expression total))
            | some vr =>
                tokenizeLoop expression total fuel vr.2
                  (tokens ++ [⟨.tStringLiteral, vr.1, total - utf8Len rs, utf8Len vr.1⟩])
          else if r = '`' then
            match consumeUntil '`' rs with
            | none => some (.error (.synErr "Unclosed delimiter: `".data expression total))
            | some vr =>
                tokenizeLoop expression total fuel vr.2
                  (tokens ++ [⟨.tJSONLiteral, unescapeBacktick vr.1,
                    total - utf8Len rs, utf8Len (unescapeBacktick vr.1)⟩])
          else if r = '|' then
            let s := matchOrElse total '|' '|' .tOr .tPipe rs
            tokenizeLoop expression total fuel s.2 (tokens ++ [s.1])
          else if r = '<' then
            let s := matchOrElse total '<' '=' .tLTE .tLT rs
            tokenizeLoop expression total fuel s.2 (tokens ++ [s.1])
          else if r = '>' then
            let s := matchOrElse total '>' '=' .tGTE .tGT rs
            tokenizeLoop expression total fuel s.2 (tokens ++ [s.1])
          else if r = '!' then
            let s := matchOrElse total '!' '=' .tNE .tUnknown rs
            tokenizeLoop expression total fuel s.2 (tokens ++ [s.1])
          else if r = '=' then
            let s := matchOrElse total '=' '=' .tEQ .tUnknown rs
            tokenizeLoop expression total fuel s.2 (tokens ++ [s.1])
          else if whiteSpaceChar r then
            tokenizeLoop expression total fuel rs tokens
          else
            some (.error (.synErr ("Unknown char: ".data ++ [r]) expression
              (total - utf8Len rs)))

/-- `tokenize` (lexer.go): run the loop with enough fuel (each iteration
consumes at least one character, so `length + 1` never runs out). -/
def tokenize (expression : List Char) : Except GoErr (List Token) :=
  (tokenizeLoop expression (utf8Len expression) (expression.length + 1) expression []).getD
    (.error (.goError "tokenize: fuel exhausted".data))

theorem basicToken_ne_eof (c : Char) (t : TokType) (h : basicToken c = some t) :
    t ≠ TokType.tEOF := by
  unfold basicToken at h
  split at h <;> first
    | exact Option.noConfusion h
    | (injection h with h; subst h; decide)

theorem matchOrElse_type_ne_eof (total : Nat) (f s : Char) (mt st : TokType)
    (rs : List Char) (h1 : mt ≠ TokType.tEOF) (h2 : st ≠ TokType.tEOF) :
    ((matchOrElse total f s mt st rs).1).tokenType ≠ TokType.tEOF := by
  unfold matchOrElse
  cases rs with
  | nil => simpa
  | cons c rest =>
    by_cases hc : c = s <;> simp [hc, h1, h2]

theorem consumeLBracket_type_ne_eof (total : Nat) (rs : List Char) :
    ((consumeLBracket total rs).1).tokenType ≠ TokType.tEOF := by
  unfold consumeLBracket
  split <;> simp

theorem acc_snoc_ne_eof {acc : List Token} (tok : Token)
    (hacc : ∀ t ∈ acc, t.tokenType ≠ TokType.tEOF) (htok : tok.tokenType ≠ TokType.tEOF) :
    ∀ t ∈ acc ++ [tok], t.tokenType ≠ TokType.tEOF := by
  intro t ht
  rcases List.mem_append.mp ht with h1 | h1
  · exact hacc t h1
  · simp only [List.mem_singleton] at h1
    subst h1
    exact htok

/-- Any successful run of the main loop produces the accumulated tokens
followed by exactly one EOF sentinel at offset `total`; no other token has
kind EOF. -/
theorem tokenizeLoop_eof_shape (expression : List Char) (total : Nat) :
    ∀ (fuel : Nat) (rest : List Char) (acc : List Token) (ts : List Token),
      tokenizeLoop expression total fuel rest acc = some (.ok ts) →
      (∀ t ∈ acc, t.tokenType ≠ TokType.tEOF) →
      ∃ pre, ts = pre ++ [⟨TokType.tEOF, [], total, 0⟩] ∧
        ∀ t ∈ pre, t.tokenType ≠ TokType.tEOF := by
  intro fuel
  induction fuel with
  | zero =>
    intro rest acc ts h hacc
    simp [tokenizeLoop] at h
  | succ fuel ih =>
    intro rest acc ts h hacc
    match rest with
    | [] =>
      simp only [tokenizeLoop, Option.some.injEq, Except.ok.injEq] at h
      exact ⟨acc, h.symm, hacc⟩
    | r :: rs =>
      rw [tokenizeLoop] at h
      by_cases c1 : identifierStartChar r
      · rw [if_pos c1] at h
        exact ih _ _ _ h (acc_snoc_ne_eof _ hacc (by simp [consumeUnquotedIdentifier]))
      · rw [if_neg c1] at h
        cases hb : basicToken r with
        | some val =>
          simp only [hb] at h
          exact ih _ _ _ h (acc_snoc_ne_eof _ hacc (basicToken_ne_eof r val hb))
        | none =>
          simp only [hb] at h
          by_cases c2 : r = '-' || (decide ('0' ≤ r) && decide (r ≤ '9'))
          · rw [if_pos c2] at h
            exact ih _ _ _ h (acc_snoc_ne_eof _ hacc (by simp [consumeNumber]))
          · rw [if_neg c2] at h
            by_cases c3 : r = '['
            · rw [if_pos c3] at h
              exact ih _ _ _ h (acc_snoc_ne_eof _ hacc (consumeLBracket_type_ne_eof total rs))
            · rw [if_neg c3] at h
              by_cases c4 : r = '"'
              · rw [if_pos c4] at h
                cases hcu : consumeUntil '"' rs with
                | none => simp [hcu] at h
                | some vr =>
                  simp only [hcu] at h
                  cases hjd : jsonDecodeString (vr.1.length + 1) vr.1 with
                  | none => simp [hjd] at h
                  | some decoded =>
                    simp only [hjd] at h
                    exact ih _ _ _ h (acc_snoc_ne_eof _ hacc (by simp))
              · rw [if_neg c4] at h
                by_cases c5 : r = '\''
                · rw [if_pos c5] at h
                  cases hrs : rawStringLoop rs with
                  | none => simp [hrs] at h
                  | some vr =>
                    simp only [hrs] at h
                    exact ih _ _ _ h (acc_snoc_ne_eof _ hacc (by simp))
                · rw [if_neg c5] at h
                  by_cases c6 : r = '`'
                  · rw [if_pos c6] at h
                    cases hcu : consumeUntil '`' rs with
                    | none => simp [hcu] at h
                    | some vr =>
                      simp only [hcu] at h
                      exact ih _ _ _ h (acc_snoc_ne_eof _ hacc (by simp))
                  · rw [if_neg c6] at h
                    by_cases c7 : r = '|'
                    · rw [if_pos c7] at h
                      exact ih _ _ _ h (acc_snoc_ne_eof _ hacc
                        (matchOrElse_type_ne_eof total '|' '|' _ _ rs (by decide) (by decide)))
                    · rw [if_neg c7] at h
                      by_cases c8 : r = '<'
                      · rw [if_pos c8] at h
                        exact ih _ _ _ h (acc_snoc_ne_eof _ hacc
                          (matchOrElse_type_ne_eof total '<' '=' _ _ rs (by decide) (by decide)))
                      · rw [if_neg c8] at h
                        by_cases c9 : r = '>'
                        · rw [if_pos c9] at h
                          exact ih _ _ _ h (acc_snoc_ne_eof _ hacc
                            (matchOrElse_type_ne_eof total '>' '=' _ _ rs (by decide) (by decide)))
                        · rw [if_neg c9] at h
                          by_cases c10 : r = '!'
                          · rw [if_pos c10] at h
                            exact ih _ _ _ h (acc_snoc_ne_eof _ hacc
                              (matchOrElse_type_ne_eof total '!' '=' _ _ rs (by decide) (by decide)))
                          · rw [if_neg c10] at h
                            by_cases c11 : r = '='
                            · rw [if_pos c11] at h
                              exact ih _ _ _ h (acc_snoc_ne_eof _ hacc
                                (matchOrElse_type_ne_eof total '=' '=' _ _ rs (by decide) (by decide)))
                            · rw [if_neg c11] at h
                              by_cases c12 : whiteSpaceChar r
                              · rw [if_pos c12] at h
                                exact ih _ _ _ h hacc
                              · rw [if_neg c12] at h
                                simp at h

theorem spanChars_rest_length (p : Char → Bool) :
    ∀ l : List Char, (spanChars p l).2.length ≤ l.length := by
  intro l
  induction l with
  | nil => simp [spanChars]
  | cons c cs ih =>
    simp only [spanChars]
    by_cases hc : p c
    · simp only [if_pos hc]
      exact le_trans ih (by simp)
    · simp [if_neg hc]

theorem consumeUntil_rest_length (endc : Char) :
    ∀ (n : Nat) (l : List Char), l.length ≤ n → ∀ v r,
      consumeUntil endc l = some (v, r) → r.length ≤ l.length := by
  intro n
  induction n with
  | zero =>
    intro l hl v r h
    have hnil : l = [] := List.length_eq_zero.mp (Nat.le_zero.mp hl)
    subst hnil
    simp [consumeUntil] at h
  | succ n ih =>
    intro l hl v r h
    match l, hl, h with
    | [], _, h => simp [consumeUntil] at h
    | [c], hl, h =>
      rw [consumeUntil.eq_2] at h
      by_cases hc : c = endc
      · rw [if_pos hc] at h
        simp only [Option.some.injEq, Prod.mk.injEq] at h
        rw [← h.2]
        simp
      · rw [if_neg hc] at h
        by_cases hb : c = '\\'
        · rw [if_pos hb] at h
          exact Option.noConfusion h
        · rw [if_neg hb, consumeUntil.eq_1] at h
          simp at h
    | c :: d :: ds, hl, h =>
      rw [consumeUntil.eq_3] at h
      by_cases hc : c = endc
      · rw [if_pos hc] at h
        simp only [Option.some.injEq, Prod.mk.injEq] at h
        rw [← h.2]
        simp
      · rw [if_neg hc] at h
        by_cases hb : c = '\\'
        · rw [if_pos hb] at h
          cases hcu : consumeUntil endc ds with
          | none => rw [hcu] at h; simp at h
          | some vr =>
            rw [hcu] at h
            simp only [Option.map_some', Option.some.injEq, Prod.mk.injEq] at h
            have hlen : vr.2.length ≤ ds.length :=
              ih ds (by simp only [List.length_cons] at hl; omega) vr.1 vr.2
                (by rw [hcu])
            rw [← h.2]
            simp only [List.length_cons]
            omega
        · rw [if_neg hb] at h
          cases hcu : consumeUntil endc (d :: ds) with
          | none => rw [hcu] at h; simp at h
          | some vr =>
            rw [hcu] at h
            simp only [Option.map_some', Option.some.injEq, Prod.mk.injEq] at h
            have hlen : vr.2.length ≤ (d :: ds).length :=
              ih (d :: ds) (by simp only [List.length_cons] at hl ⊢; omega) vr.1 vr.2
                (by rw [hcu])
            rw [← h.2]
            simp only [List.length_cons] at hlen ⊢
            omega

theorem rawStringLoop_rest_length :
    ∀ (n : Nat) (l : List Char), l.length ≤ n → ∀ v r,
      rawStringLoop l = some (v, r) → r.length ≤ l.length := by
  intro n
  induction n with
  | zero =>
    intro l hl v r h
    have hnil : l = [] := List.length_eq_zero.mp (Nat.le_zero.mp hl)
    subst hnil
    simp [rawStringLoop] at h
  | succ n ih =>
    intro l hl v r h
    match l, hl, h with
    | [], _, h => simp [rawStringLoop] at h
    | [c], hl, h =>
      rw [rawStringLoop.eq_2] at h
      by_cases hc : c = '\''
      · rw [if_pos hc] at h
        simp only [Option.some.injEq, Prod.mk.injEq] at h
        rw [← h.2]
        simp
      · rw [if_neg hc] at h
        exact Option.noConfusion h
    | c :: d :: ds, hl, h =>
      rw [rawStringLoop.eq_3] at h
      by_cases hc : c = '\''
      · rw [if_pos hc] at h
        simp only [Option.some.injEq, Prod.mk.injEq] at h
        rw [← h.2]
        simp
      · rw [if_neg hc] at h
        by_cases hbd : c = '\\' ∧ d = '\''
        · rw [if_pos (by simp [hbd.1, hbd.2])] at h
          cases hcu : rawStringLoop ds with
          | none => rw [hcu] at h; simp at h
          | some vr =>
            rw [hcu] at h
            simp only [Option.map_some', Option.some.injEq, Prod.mk.injEq] at h
            have hlen : vr.2.length ≤ ds.length :=
              ih ds (by simp only [List.length_cons] at hl; omega) vr.1 vr.2
                (by rw [hcu])
            rw [← h.2]
            simp only [List.length_cons]
            omega
        · rw [if_neg (by
            intro hcon
            exact hbd ⟨by simpa using (Bool.and_eq_true_iff.mp hcon).1,
              by simpa using (Bool.and_eq_true_iff.mp hcon).2⟩)] at h
          cases hcu : rawStringLoop (d :: ds) with
          | none => rw [hcu] at h; simp at h
          | some vr =>
            rw [hcu] at h
            simp only [Option.map_some', Option.some.injEq, Prod.mk.injEq] at h
            have hlen : vr.2.length ≤ (d :: ds).length :=
              ih (d :: ds) (by simp only [List.length_cons] at hl ⊢; omega) vr.1 vr.2
                (by rw [hcu])
            rw [← h.2]
            simp only [List.length_cons] at hlen ⊢
            omega

theorem consumeLBracket_rest_length (total : Nat) (rs : List Char) :
    ((consumeLBracket total rs).2).length ≤ rs.length := by
  unfold consumeLBracket
  split <;> simp_all <;> omega

theorem matchOrElse_rest_length (total : Nat) (f s : Char) (mt st : TokType)
    (rs : List Char) : ((matchOrElse total f s mt st rs).2).length ≤ rs.length := by
  unfold matchOrElse
  split <;> (try split) <;> simp_all <;> omega

/-- The fuel supplied by `tokenize` is always sufficient: every loop iteration
consumes at least one character, so the loop with `length + 1` fuel never hits
the fuel-exhaustion case.  The fuel is therefore an artifact of the embedding
and not an extra failure mode of the lexer. -/
theorem tokenizeLoop_fuel_sufficient (expression : List Char) (total : Nat) :
    ∀ (fuel : Nat) (rest : List Char) (acc : List Token), rest.length < fuel →
      tokenizeLoop expression total fuel rest acc ≠ none := by
  intro fuel
  induction fuel with
  | zero => intro rest acc h; omega
  | succ fuel ih =>
    intro rest acc hlt
    match rest with
    | [] => rw [tokenizeLoop]; simp
    | r :: rs =>
      rw [tokenizeLoop]
      have hrs : rs.length < fuel + 1 := by
        simp only [List.length_cons] at hlt; omega
      by_cases c1 : identifierStartChar r
      · rw [if_pos c1]
        exact ih _ _ (by
          have := spanChars_rest_length identifierTrailingChar rs
          simp only [consumeUnquotedIdentifier]
          simp only [List.length_cons] at hlt
          omega)
      · rw [if_neg c1]
        cases hb : basicToken r with
        | some val =>
          simp only []
          exact ih _ _ (by simp only [List.length_cons] at hlt; omega)
        | none =>
          simp only []
          by_cases c2 : r = '-' || (decide ('0' ≤ r) && decide (r ≤ '9'))
          · rw [if_pos c2]
            exact ih _ _ (by
              have := spanChars_rest_length (fun c => decide ('0' ≤ c) && decide (c ≤ '9')) rs
              simp only [consumeNumber]
              simp only [List.length_cons] at hlt
              omega)
          · rw [if_neg c2]
            by_cases c3 : r = '['
            · rw [if_pos c3]
              refine ih _ _ ?_
              have := consumeLBracket_rest_length total rs
              simp only [List.length_cons] at hlt
              omega
            · rw [if_neg c3]
              by_cases c4 : r = '"'
              · rw [if_pos c4]
                cases hcu : consumeUntil '"' rs with
                | none => simp [hcu]
                | some vr =>
                  simp only [hcu]
                  cases hjd : jsonDecodeString (vr.1.length + 1) vr.1 with
                  | none => simp [hjd]
                  | some decoded =>
                    simp only [hjd]
                    refine ih _ _ ?_
                    have := consumeUntil_rest_length '"' rs.length rs le_rfl vr.1 vr.2
                      (by rw [hcu])
                    simp only [List.length_cons] at hlt
                    omega
              · rw [if_neg c4]
                by_cases c5 : r = '\''
                · rw [if_pos c5]
                  cases hrsl : rawStringLoop rs with
                  | none => simp [hrsl]
                  | some vr =>
                    simp only [hrsl]
                    refine ih _ _ ?_
                    have := rawStringLoop_rest_length rs.length rs le_rfl vr.1 vr.2
                      (by rw [hrsl])
                    simp only [List.length_cons] at hlt
                    omega
                · rw [if_neg c5]
                  by_cases c6 : r = '`'
                  · rw [if_pos c6]
                    cases hcu : consumeUntil '`' rs with
                    | none => simp [hcu]
                    | some vr =>
                      simp only [hcu]
                      refine ih _ _ ?_
                      have := consumeUntil_rest_length '`' rs.length rs le_rfl vr.1 vr.2
                        (by rw [hcu])
                      simp only [List.length_cons] at hlt
                      omega
                  · rw [if_neg c6]
                    have hmo : ∀ (f s : Char) (mt st : TokType),
                        ((matchOrElse total f s mt st rs).2).length < fuel := by
                      intro f s mt st
                      have := matchOrElse_rest_length total f s mt st rs
                      simp only [List.length_cons] at hlt
                      omega
                    by_cases c7 : r = '|'
                    · rw [if_pos c7]; exact ih _ _ (hmo '|' '|' .tOr .tPipe)
                    · rw [if_neg c7]
                      by_cases c8 : r = '<'
                      · rw [if_pos c8]; exact ih _ _ (hmo '<' '=' .tLTE .tLT)
                      · rw [if_neg c8]
                        by_cases c9 : r = '>'
                        · rw [if_pos c9]; exact ih _ _ (hmo '>' '=' .tGTE .tGT)
                        · rw [if_neg c9]
                          by_cases c10 : r = '!'
                          · rw [if_pos c10]; exact ih _ _ (hmo '!' '=' .tNE .tUnknown)
                          · rw [if_neg c10]
                            by_cases c11 : r = '='
                            · rw [if_pos c11]; exact ih _ _ (hmo '=' '=' .tEQ .tUnknown)
                            · rw [if_neg c11]
                              by_cases c12 : whiteSpaceChar r
                              · rw [if_pos c12]
                                refine ih _ _ ?_
                                simp only [List.length_cons] at hlt
                                omega
                              · rw [if_neg c12]; simp

/-- **C10.** For every expression on which tokenization succeeds, the returned
token sequence ends with exactly one EOF sentinel token whose byte offset is
the byte length of the expression, and no EOF token appears anywhere else. -/
theorem C10_tokenize_eof (expression : List Char) (ts : List Token)
    (h : tokenize expression = .ok ts) :
    ∃ pre, ts = pre ++ [⟨TokType.tEOF, [], utf8Len expression, 0⟩] ∧
      ∀ t ∈ pre, t.tokenType ≠ TokType.tEOF := by
  unfold tokenize at h
  cases hloop : tokenizeLoop expression (utf8Len expression) (expression.length + 1)
      expression [] with
  | none => rw [hloop] at h; simp [Option.getD] at h
  | some r =>
    rw [hloop] at h
    simp only [Option.getD] at h
    subst h
    exact tokenizeLoop_eof_shape expression (utf8Len expression) (expression.length + 1)
      expression [] ts hloop (by simp)

theorem C10_tokenize_eof_witness :
    ∃ pre, (match tokenize "foo[0]".data with | .ok ts => ts | .error _ => []) =
        pre ++ [⟨TokType.tEOF, [], utf8Len "foo[0]".data, 0⟩] ∧
      ∀ t ∈ pre, t.tokenType ≠ TokType.tEOF := by
  have h := C10_tokenize_eof "foo[0]".data
    [⟨TokType.tUnquotedIdentifier, "foo".data, 0, 3⟩,
     ⟨TokType.tLbracket, "[".data, 3, 1⟩,
     ⟨TokType.tNumber, "0".data, 4, 1⟩,
     ⟨TokType.tRbracket, "]".data, 5, 1⟩,
     ⟨TokType.tEOF, [], 6, 0⟩] (by rfl)
  obtain ⟨pre, hpre, hne⟩ := h
  refine ⟨pre, ?_, hne⟩
  rw [show tokenize "foo[0]".data
      = .ok [⟨TokType.tUnquotedIdentifier, "foo".data, 0, 3⟩,
        ⟨TokType.tLbracket, "[".data, 3, 1⟩,
        ⟨TokType.tNumber, "0".data, 4, 1⟩,
        ⟨TokType.tRbracket, "]".data, 5, 1⟩,
        ⟨TokType.tEOF, [], 6, 0⟩] from by rfl]
  exact hpre

/-! ## The parser (`parser.go`, the first parser of the file)

`Parse` runs a Pratt parser over the token stream produced by `tokenize`.
The Go `Parser` struct (expression text, token slice, cursor `index`) becomes
`ParserState`; the methods that mutate `p.index` become functions threading the
state, returned alongside the result because Go does not roll the cursor back
on error.  The mutually recursive parse functions take a fuel argument and
return `none` on exhaustion; `Parse` supplies generous fuel and maps the
impossible exhaustion to a plain error. -/

/-- `ASTNodeType` (parser.go): the `iota` enumeration, in source order. -/
inductive ASTNodeType where
  | ASTEmpty
  | ASTComparator
  | ASTCurrentNode
  | ASTExpRef
  | ASTFunctionExpression
  | ASTField
  | ASTFilterProjection
  | ASTFlatten
  | ASTIdentity
  | ASTIndex
  | ASTIndexExpression
  | ASTKeyValPair
  | ASTLiteral
  | ASTMultiSelectHash
  | ASTMultiSelectList
  | ASTOrExpression
  | ASTAndExpression
  | ASTNotExpression
  | ASTPipe
  | ASTProjection
  | ASTSubexpression
  | ASTSlice
  | ASTValueProjection
deriving DecidableEq, Repr

/-- The `interface{}` payload of `ASTNode.Value`: the parser stores `nil`, a
Go `int` (index nodes), a string (fields, literals, key names, function
names), the `[]*int` slice parts, a `tokType` (comparator nodes), or decoded
JSON (literal nodes). -/
inductive ASTValue where
  | vnil
  | vint (i : Int)
  | vstr (s : List Char)
  | vslice (parts : List (Option Int))
  | vtok (t : TokType)
  | vjson (v : Value)

/-- `ASTNode` (parser.go): node type, payload, children. -/
inductive ASTNode where
  | node (nodeType : ASTNodeType) (value : ASTValue) (children : List ASTNode)

def ASTNode.nodeType : ASTNode → ASTNodeType
  | .node t _ _ => t

def ASTNode.value : ASTNode → ASTValue
  | .node _ v _ => v

/-- The zero value `ASTNode{}`: node type `0 = ASTEmpty`, nil payload, no
children. -/
def emptyAST : ASTNode := .node .ASTEmpty .vnil []

/-- `bindingPowers` (parser.go): the Pratt binding-power map.  A Go map read
of a missing key yields the zero value, so unlisted token kinds get 0. -/
def bindingPowers : TokType → Nat
  | .tEOF => 0
  | .tUnquotedIdentifier => 0
  | .tQuotedIdentifier => 0
  | .tRbracket => 0
  | .tRparen => 0
  | .tComma => 0
  | .tRbrace => 0
  | .tNumber => 0
  | .tCurrent => 0
  | .tExpref => 0
  | .tColon => 0
  | .tPipe => 1
  | .tOr => 2
  | .tAnd => 3
  | .tEQ => 5
  | .tLT => 5
  | .tLTE => 5
  | .tGT => 5
  | .tGTE => 5
  | .tNE => 5
  | .tFlatten => 9
  | .tStar => 20
  | .tFilter => 21
  | .tDot => 40
  | .tNot => 45
  | .tLbrace => 50
  | .tLbracket => 55
  | .tLparen => 60
  | _ => 0

/-- `tokType.String()` (the stringer-generated names used in parser error
messages). -/
def TokType.goString : TokType → List Char
  | .tUnknown => "tUnknown".data
  | .tStar => "tStar".data
  | .tDot => "tDot".data
  | .tFilter => "tFilter".data
  | .tFlatten => "tFlatten".data
  | .tLparen => "tLparen".data
  | .tRparen => "tRparen".data
  | .tLbracket => "tLbracket".data
  | .tRbracket => "tRbracket".data
  | .tLbrace => "tLbrace".data
  | .tRbrace => "tRbrace".data
  | .tOr => "tOr".data
  | .tPipe => "tPipe".data
  | .tNumber => "tNumber".data
  | .tUnquotedIdentifier => "tUnquotedIdentifier".data
  | .tQuotedIdentifier => "tQuotedIdentifier".data
  | .tComma => "tComma".data
  | .tColon => "tColon".data
  | .tLT => "tLT".data
  | .tLTE => "tLTE".data
  | .tGT => "tGT".data
  | .tGTE => "tGTE".data
  | .tEQ => "tEQ".data
  | .tNE => "tNE".data
  | .tJSONLiteral => "tJSONLiteral".data
  | .tStringLiteral => "tStringLiteral".data
  | .tCurrent => "tCurrent".data
  | .tExpref => "tExpref".data
  | .tEOF => "tEOF".data
  | .tAnd => "tAnd".data
  | .tNot => "tNot".data

/-- `Parser` (parser.go): the expression being parsed, the token slice and the
cursor. -/
structure ParserState where
  expression : List Char
  tokens : List Token
  index : Nat

/-- `lookaheadToken` (parser.go): `p.tokens[p.index+number]`.  Go would panic
on an out-of-range index; `Parse` only runs the parser on `tokenize` output,
which always ends in a `tEOF` sentinel with binding power 0 that stops every
loop, so the access stays in bounds and the `getD` default is never
consulted. -/
def ParserState.lookaheadToken (p : ParserState) (number : Nat) : Token :=
  p.tokens.getD (p.index + number) ⟨.tEOF, [], 0, 0⟩

/-- `lookahead` (parser.go). -/
def ParserState.lookahead (p : ParserState) (number : Nat) : TokType :=
  (p.lookaheadToken number).tokenType

/-- `current` (parser.go). -/
def ParserState.current (p : ParserState) : TokType := p.lookahead 0

/-- `advance` (parser.go). -/
def ParserState.advance (p : ParserState) : ParserState := { p with index := p.index + 1 }

/-- `syntaxError` (parser.go): a SyntaxError at the current lookahead token's
byte offset, carrying the expression text. -/
def ParserState.synErrorAt (p : ParserState) (msg : List Char) : GoErr :=
  .synErr msg p.expression (p.lookaheadToken 0).position

/-- `syntaxErrorToken` (parser.go): a SyntaxError at the given token's byte
offset. -/
def ParserState.synErrorTok (p : ParserState) (msg : List Char) (t : Token) : GoErr :=
  .synErr msg p.expression t.position

/-- `match` (parser.go): advance past the expected token kind, or report a
SyntaxError naming the expected and received kinds (without advancing). -/
def pMatch (tokenType : TokType) (p : ParserState) : ParserState × Option GoErr :=
  if p.current = tokenType then (p.advance, none)
  else
    (p, some (p.synErrorAt ("Expected ".data ++ tokenType.goString
      ++ ", received: ".data ++ (p.current).goString)))

/-- `tokensOneOf` (parser.go). -/
def tokensOneOf (elements : List TokType) (token : TokType) : Bool :=
  elements.any fun elem => elem == token

/-- Modelled from the stdlib: `strconv.Atoi` (base-10 `ParseInt` at `int` =
64 bits).  The digits are accumulated exactly and the int64 range check is
applied at the end; Go detects overflow during accumulation but errors on
exactly the same inputs, which is all the parser observes.  The Go error
message (`strconv.Atoi: parsing "…": invalid …`) is elided. -/
def digitsValAux : Nat → List Char → Option Nat
  | acc, [] => some acc
  | acc, c :: cs =>
      if decide ('0' ≤ c) && decide (c ≤ '9') then
        digitsValAux (acc * 10 + (c.toNat - 48)) cs
      else none

def Atoi (s : List Char) : Except GoErr Int :=
  let signed : Bool × List Char :=
    match s with
    | '-' :: rest => (true, rest)
    | '+' :: rest => (false, rest)
    | _ => (false, s)
  match signed.2 with
  | [] => .error (.goError "strconv.Atoi: parsing error".data)
  | ds =>
      match digitsValAux 0 ds with
      | none => .error (.goError "strconv.Atoi: parsing error".data)
      | some n =>
          let v : Int := if signed.1 then -(n : Int) else (n : Int)
          if v < -(2 ^ 63) ∨ 2 ^ 63 - 1 < v then
            .error (.goError "strconv.Atoi: value out of range".data)
          else .ok v

/-! Modelled from the stdlib: `json.Unmarshal` into `interface{}`, used by the
`tJSONLiteral` case of `nud` (encoding/json is Go's standard library, not part
of this repository).  A fueled recursive-descent JSON reader producing the
`Value` embedding: `null`/booleans/strings/arrays/objects as written, numbers
as exact rationals (the `float64` rounding is elided throughout the
embedding).  Object fields are kept as a list in textual order; Go's
`map[string]interface{}` is unordered with last-wins duplicate keys, a
difference no parser-level property observes.  Strict-mode details of Go's
scanner (e.g. rejection of leading zeros) are elided. -/

/-- JSON whitespace skipping. -/
def skipJsonWS (l : List Char) : List Char :=
  (spanChars (fun c => c = ' ' || c = '\t' || c = '\n' || c = '\r') l).2

/-- The longest digit run, and the value of a digit run. -/
def jsonDigits (l : List Char) : List Char × List Char :=
  spanChars (fun c => decide ('0' ≤ c) && decide (c ≤ '9')) l

def digitsToNat (l : List Char) : Nat :=
  l.foldl (fun acc c => acc * 10 + (c.toNat - 48)) 0

/-- A JSON number `-?digits(.digits)?([eE][+-]?digits)?` as an exact
rational. -/
def parseJsonNumber (s : List Char) : Option (ℚ × List Char) :=
  let core : List Char → Option (ℚ × List Char) := fun s1 =>
    let ip := jsonDigits s1
    if ip.1.isEmpty then none
    else
      let fracStep : Option (List Char × List Char) :=
        match ip.2 with
        | '.' :: r =>
            let d := jsonDigits r
            if d.1.isEmpty then none else some (d.1, d.2)
        | _ => some ([], ip.2)
      match fracStep with
      | none => none
      | some (fracDigits, afterFrac) =>
          let expStep : Option (Int × List Char) :=
            match afterFrac with
            | 'e' :: r | 'E' :: r =>
                let sgn : Int × List Char :=
                  match r with
                  | '+' :: rr => (1, rr)
                  | '-' :: rr => (-1, rr)
                  | _ => (1, r)
                let d := jsonDigits sgn.2
                if d.1.isEmpty then none
                else some (sgn.1 * (digitsToNat d.1 : Int), d.2)
            | _ => some (0, afterFrac)
          match expStep with
          | none => none
          | some (e, rest) =>
              let mantissa : ℚ := (digitsToNat ip.1 : ℚ)
                + (digitsToNat fracDigits : ℚ) / ((10 : ℚ) ^ fracDigits.length)
              some (mantissa * (10 : ℚ) ^ e, rest)
  match s with
  | '-' :: r => (core r).map fun v => (-v.1, v.2)
  | _ => core s

mutual

def jsonParseValue : Nat → List Char → Option (Value × List Char)
  | 0, _ => none
  | fuel + 1, s =>
      match skipJsonWS s with
      | 'n' :: 'u' :: 'l' :: 'l' :: rest => some (.null, rest)
      | 't' :: 'r' :: 'u' :: 'e' :: rest => some (.bool true, rest)
      | 'f' :: 'a' :: 'l' :: 's' :: 'e' :: rest => some (.bool false, rest)
      | '"' :: rest =>
          (match consumeUntil '"' rest with
           | none => none
           | some vr =>
               match jsonDecodeString (vr.1.length + 1) vr.1 with
               | none => none
               | some decoded => some (.str decoded, vr.2))
      | '[' :: rest =>
          (match skipJsonWS rest with
           | ']' :: rest2 => some (.array [], rest2)
           | s2 => (jsonParseElems fuel s2).map fun er => (Value.array er.1, er.2))
      | '{' :: rest =>
          (match skipJsonWS rest with
           | '}' :: rest2 => some (.object [], rest2)
           | s2 => (jsonParseFields fuel s2).map fun fr => (Value.object fr.1, fr.2))
      | s1 => (parseJsonNumber s1).map fun nr => (Value.number (.finite nr.1), nr.2)
termination_by structural fuel _ => fuel

def jsonParseElems : Nat → List Char → Option (List Value × List Char)
  | 0, _ => none
  | fuel + 1, s =>
      match jsonParseValue fuel s with
      | none => none
      | some (v, rest) =>
          match skipJsonWS rest with
          | ',' :: rest2 => (jsonParseElems fuel rest2).map fun er => (v :: er.1, er.2)
          | ']' :: rest2 => some ([v], rest2)
          | _ => none
termination_by structural fuel _ => fuel

def jsonParseFields : Nat → List Char → Option (List (List Char × Value) × List Char)
  | 0, _ => none
  | fuel + 1, s =>
      match skipJsonWS s with
      | '"' :: rest =>
          (match consumeUntil '"' rest with
           | none => none
           | some vr =>
               match jsonDecodeString (vr.1.length + 1) vr.1 with
               | none => none
               | some key =>
                   match skipJsonWS vr.2 with
                   | ':' :: rest2 =>
                       (match jsonParseValue fuel rest2 with
                        | none => none
                        | some (v, rest3) =>
                            match skipJsonWS rest3 with
                            | ',' :: rest4 =>
                                (jsonParseFields fuel rest4).map fun fr =>
                                  ((key, v) :: fr.1, fr.2)
                            | '}' :: rest4 => some ([(key, v)], rest4)
                            | _ => none)
                   | _ => none)
      | _ => none
termination_by structural fuel _ => fuel

end

/-- `json.Unmarshal` of a whole document (modelled from the stdlib, see
above): fuel `2 * length + 2` covers the deepest possible nesting (each two
recursive steps consume at least one character). -/
def jsonUnmarshal (s : List Char) : Except GoErr Value :=
  match jsonParseValue (2 * s.length + 2) s with
  | none => .error (.goError "invalid json document".data)
  | some (v, rest) =>
      if (skipJsonWS rest).isEmpty then .ok v
      else .error (.goError "invalid character after top-level value".data)

set_option maxHeartbeats 3200000 in
mutual

/-- `parseExpression` (parser.go): consume the left token, apply `nud`, then
run the binding-power loop. -/
def parseExpression : Nat → Nat → ParserState → Option (ParserState × Except GoErr ASTNode)
  | 0, _, _ => none
  | fuel + 1, bindingPower, p =>
      let leftToken := p.lookaheadToken 0
      let p := p.advance
      match nud fuel leftToken p with
      | none => none
      | some (p, .error e) => some (p, .error e)
      | some (p, .ok leftNode) => parseExpressionLoop fuel bindingPower leftNode p
termination_by structural fuel _ _ => fuel

/-- The `for bindingPower < bindingPowers[currentToken]` loop of
`parseExpression`. -/
def parseExpressionLoop : Nat → Nat → ASTNode → ParserState →
    Option (ParserState × Except GoErr ASTNode)
  | 0, _, _, _ => none
  | fuel + 1, bindingPower, leftNode, p =>
      let currentToken := p.current
      if bindingPower < bindingPowers currentToken then
        let p := p.advance
        match led fuel currentToken leftNode p with
        | none => none
        | some (p, .error e) => some (p, .error e)
        | some (p, .ok leftNode2) => parseExpressionLoop fuel bindingPower leftNode2 p
      else some (p, .ok leftNode)
termination_by structural fuel _ _ _ => fuel

/-- `parseIndexExpression` (parser.go). -/
def parseIndexExpression : Nat → ParserState → Option (ParserState × Except GoErr ASTNode)
  | 0, _ => none
  | fuel + 1, p =>
      if p.lookahead 0 = .tColon ∨ p.lookahead 1 = .tColon then
        parseSliceExpression fuel p
      else
        match Atoi (p.lookaheadToken 0).value with
        | .error e => some (p, .error e)
        | .ok parsedInt =>
            let indexNode := ASTNode.node .ASTIndex (.vint parsedInt) []
            let p := p.advance
            match pMatch .tRbracket p with
            | (p, some e) => some (p, .error e)
            | (p, none) => some (p, .ok indexNode)

/-- `parseSliceExpression` (parser.go): `parts := []*int{nil, nil, nil}`,
then the collection loop. -/
def parseSliceExpression : Nat → ParserState → Option (ParserState × Except GoErr ASTNode)
  | 0, _ => none
  | fuel + 1, p => parseSliceLoop fuel (none, none, none) 0 p

/-- The `for current != tRbracket && index < 3` loop of
`parseSliceExpression`, followed by the closing `match(tRbracket)`.
`parts[index] = &parsedInt` becomes a positional update (the loop guard keeps
`index < 3`). -/
def parseSliceLoop : Nat → Option Int × Option Int × Option Int → Nat → ParserState →
    Option (ParserState × Except GoErr ASTNode)
  | 0, _, _, _ => none
  | fuel + 1, parts, index, p =>
      let current := p.current
      if current ≠ .tRbracket ∧ index < 3 then
        if current = .tColon then parseSliceLoop fuel parts (index + 1) p.advance
        else if current = .tNumber then
          match Atoi (p.lookaheadToken 0).value with
          | .error e => some (p, .error e)
          | .ok parsedInt =>
              let parts2 :=
                match index with
                | 0 => (some parsedInt, parts.2.1, parts.2.2)
                | 1 => (parts.1, some parsedInt, parts.2.2)
                | _ => (parts.1, parts.2.1, some parsedInt)
              parseSliceLoop fuel parts2 index p.advance
        else
          some (p, .error (p.synErrorAt ("Expected tColon or tNumber".data
            ++ ", received: ".data ++ (p.current).goString)))
      else
        match pMatch .tRbracket p with
        | (p, some e) => some (p, .error e)
        | (p, none) =>
            some (p, .ok (.node .ASTSlice (.vslice [parts.1, parts.2.1, parts.2.2]) []))
termination_by structural fuel _ _ _ => fuel

/-- `led` (parser.go). -/
def led : Nat → TokType → ASTNode → ParserState → Option (ParserState × Except GoErr ASTNode)
  | 0, _, _, _ => none
  | fuel + 1, tokenType, node, p =>
      match tokenType with
      | .tDot =>
          if p.current ≠ .tStar then
            match parseDotRHS fuel (bindingPowers .tDot) p with
            | none => none
            | some (p, .error e) => some (p, .error e)
            | some (p, .ok right) =>
                some (p, .ok (.node .ASTSubexpression .vnil [node, right]))
          else
            let p := p.advance
            match parseProjectionRHS fuel (bindingPowers .tDot) p with
            | none => none
            | some (p, .error e) => some (p, .error e)
            | some (p, .ok right) =>
                some (p, .ok (.node .ASTValueProjection .vnil [node, right]))
      | .tPipe =>
          (match parseExpression fuel (bindingPowers .tPipe) p with
           | none => none
           | some (p, .error e) => some (p, .error e)
           | some (p, .ok right) => some (p, .ok (.node .ASTPipe .vnil [node, right])))
      | .tOr =>
          (match parseExpression fuel (bindingPowers .tOr) p with
           | none => none
           | some (p, .error e) => some (p, .error e)
           | some (p, .ok right) => some (p, .ok (.node .ASTOrExpression .vnil [node, right])))
      | .tAnd =>
          (match parseExpression fuel (bindingPowers .tAnd) p with
           | none => none
           | some (p, .error e) => some (p, .error e)
           | some (p, .ok right) => some (p, .ok (.node .ASTAndExpression .vnil [node, right])))
      | .tLparen => ledParenLoop fuel node.value [] p
      | .tFilter => parseFilter fuel node p
      | .tFlatten =>
          let left := ASTNode.node .ASTFlatten .vnil [node]
          (match parseProjectionRHS fuel (bindingPowers .tFlatten) p with
           | none => none
           | some (p, .error e) => some (p, .error e)
           | some (p, .ok right) => some (p, .ok (.node .ASTProjection .vnil [left, right])))
      | .tEQ | .tNE | .tGT | .tGTE | .tLT | .tLTE =>
          (match parseExpression fuel (bindingPowers tokenType) p with
           | none => none
           | some (p, .error e) => some (p, .error e)
           | some (p, .ok right) =>
               some (p, .ok (.node .ASTComparator (.vtok tokenType) [node, right])))
      | .tLbracket =>
          let innerType := p.current
          if innerType = .tNumber ∨ innerType = .tColon then
            match parseIndexExpression fuel p with
            | none => none
            | some (p, .error e) => some (p, .error e)
            | some (p, .ok right) => projectIfSlice fuel node right p
          else
            match pMatch .tStar p with
            | (p, some e) => some (p, .error e)
            | (p, none) =>
                match pMatch .tRbracket p with
                | (p, some e) => some (p, .error e)
                | (p, none) =>
                    match parseProjectionRHS fuel (bindingPowers .tStar) p with
                    | none => none
                    | some (p, .error e) => some (p, .error e)
                    | some (p, .ok right) =>
                        some (p, .ok (.node .ASTProjection .vnil [node, right]))
      | _ =>
          some (p, .error (p.synErrorAt ("Unexpected token: ".data ++ tokenType.goString)))
termination_by structural fuel _ _ _ => fuel

/-- The argument-collection loop of `led`'s `tLparen` case, followed by the
closing `match(tRparen)`. -/
def ledParenLoop : Nat → ASTValue → List ASTNode → ParserState →
    Option (ParserState × Except GoErr ASTNode)
  | 0, _, _, _ => none
  | fuel + 1, name, args, p =>
      if p.current ≠ .tRparen then
        match parseExpression fuel 0 p with
        | none => none
        | some (p, .error e) => some (p, .error e)
        | some (p, .ok expression) =>
            if p.current = .tComma then
              match pMatch .tComma p with
              | (p, some e) => some (p, .error e)
              | (p, none) => ledParenLoop fuel name (args ++ [expression]) p
            else ledParenLoop fuel name (args ++ [expression]) p
      else
        match pMatch .tRparen p with
        | (p, some e) => some (p, .error e)
        | (p, none) => some (p, .ok (.node .ASTFunctionExpression name args))
termination_by structural fuel _ _ _ => fuel

/-- `nud` (parser.go). -/
def nud : Nat → Token → ParserState → Option (ParserState × Except GoErr ASTNode)
  | 0, _, _ => none
  | fuel + 1, token, p =>
      match token.tokenType with
      | .tJSONLiteral =>
          (match jsonUnmarshal token.value with
           | .error e => some (p, .error e)
           | .ok parsed => some (p, .ok (.node .ASTLiteral (.vjson parsed) [])))
      | .tStringLiteral => some (p, .ok (.node .ASTLiteral (.vstr token.value) []))
      | .tUnquotedIdentifier => some (p, .ok (.node .ASTField (.vstr token.value) []))
      | .tQuotedIdentifier =>
          if p.current = .tLparen then
            some (p, .error (p.synErrorTok
              ("Can".data ++ [Char.ofNat 39] ++ "t have quoted identifier as function Name.".data)
              token))
          else some (p, .ok (.node .ASTField (.vstr token.value) []))
      | .tStar =>
          let left := ASTNode.node .ASTIdentity .vnil []
          if p.current = .tRbracket then
            some (p, .ok (.node .ASTValueProjection .vnil
              [left, .node .ASTIdentity .vnil []]))
          else
            match parseProjectionRHS fuel (bindingPowers .tStar) p with
            | none => none
            | some (p, .error e) => some (p, .error e)
            | some (p, .ok right) =>
                some (p, .ok (.node .ASTValueProjection .vnil [left, right]))
      | .tFilter => parseFilter fuel (.node .ASTIdentity .vnil []) p
      | .tLbrace => parseMultiSelectHash fuel p
      | .tFlatten =>
          let left := ASTNode.node .ASTFlatten .vnil [.node .ASTIdentity .vnil []]
          (match parseProjectionRHS fuel (bindingPowers .tFlatten) p with
           | none => none
           | some (p, .error e) => some (p, .error e)
           | some (p, .ok right) => some (p, .ok (.node .ASTProjection .vnil [left, right])))
      | .tLbracket =>
          let innerType := p.current
          if innerType = .tNumber ∨ innerType = .tColon then
            match parseIndexExpression fuel p with
            | none => none
            | some (p, .error _) =>
                -- parser.go line 369: `return ASTNode{}, nil`.  The SyntaxError
                -- from the failed index expression is discarded and the parse
                -- continues with the zero-value node and a nil error.
                some (p, .ok emptyAST)
            | some (p, .ok right) =>
                projectIfSlice fuel (.node .ASTIdentity .vnil []) right p
          else if innerType = .tStar ∧ p.lookahead 1 = .tRbracket then
            let p := p.advance
            let p := p.advance
            match parseProjectionRHS fuel (bindingPowers .tStar) p with
            | none => none
            | some (p, .error e) => some (p, .error e)
            | some (p, .ok right) =>
                some (p, .ok (.node .ASTProjection .vnil
                  [.node .ASTIdentity .vnil [], right]))
          else parseMultiSelectList fuel p
      | .tCurrent => some (p, .ok (.node .ASTCurrentNode .vnil []))
      | .tExpref =>
          (match parseExpression fuel (bindingPowers .tExpref) p with
           | none => none
           | some (p, .error e) => some (p, .error e)
           | some (p, .ok expression) =>
               some (p, .ok (.node .ASTExpRef .vnil [expression])))
      | .tNot =>
          (match parseExpression fuel (bindingPowers .tNot) p with
           | none => none
           | some (p, .error e) => some (p, .error e)
           | some (p, .ok expression) =>
               some (p, .ok (.node .ASTNotExpression .vnil [expression])))
      | .tLparen =>
          (match parseExpression fuel 0 p with
           | none => none
           | some (p, .error e) => some (p, .error e)
           | some (p, .ok expression) =>
               match pMatch .tRparen p with
               | (p, some e) => some (p, .error e)
               | (p, none) => some (p, .ok expression))
      | .tEOF => some (p, .error (p.synErrorTok "Incomplete expression".data token))
      | t => some (p, .error (p.synErrorTok ("Invalid token: ".data ++ t.goString) token))
termination_by structural fuel _ _ => fuel

/-- `parseMultiSelectList` (parser.go). -/
def parseMultiSelectList : Nat → ParserState → Option (ParserState × Except GoErr ASTNode)
  | 0, _ => none
  | fuel + 1, p => msListLoop fuel [] p
termination_by structural fuel _ => fuel

/-- The collection loop of `parseMultiSelectList`: break on `tRbracket` (which
the trailing `match(tRbracket)` then consumes), otherwise `match(tComma)` and
continue. -/
def msListLoop : Nat → List ASTNode → ParserState →
    Option (ParserState × Except GoErr ASTNode)
  | 0, _, _ => none
  | fuel + 1, expressions, p =>
      match parseExpression fuel 0 p with
      | none => none
      | some (p, .error e) => some (p, .error e)
      | some (p, .ok expression) =>
          let expressions2 := expressions ++ [expression]
          if p.current = .tRbracket then
            match pMatch .tRbracket p with
            | (p, some e) => some (p, .error e)
            | (p, none) =>
                some (p, .ok (.node .ASTMultiSelectList .vnil expressions2))
          else
            match pMatch .tComma p with
            | (p, some e) => some (p, .error e)
            | (p, none) => msListLoop fuel expressions2 p
termination_by structural fuel _ _ => fuel

/-- `parseMultiSelectHash` (parser.go). -/
def parseMultiSelectHash : Nat → ParserState → Option (ParserState × Except GoErr ASTNode)
  | 0, _ => none
  | fuel + 1, p => msHashLoop fuel [] p
termination_by structural fuel _ => fuel

/-- The key-value collection loop of `parseMultiSelectHash`: a key is an
unquoted or quoted identifier (`match` tried in that order, the failed first
`match` not advancing). -/
def msHashLoop : Nat → List ASTNode → ParserState →
    Option (ParserState × Except GoErr ASTNode)
  | 0, _, _ => none
  | fuel + 1, children, p =>
      let keyToken := p.lookaheadToken 0
      match pMatch .tUnquotedIdentifier p with
      | (p, none) => msHashAfterKey fuel children keyToken p
      | (p, some _) =>
          match pMatch .tQuotedIdentifier p with
          | (p, none) => msHashAfterKey fuel children keyToken p
          | (p, some _) =>
              some (p, .error
                (p.synErrorAt "Expected tQuotedIdentifier or tUnquotedIdentifier".data))
termination_by structural fuel _ _ => fuel

/-- The rest of one `parseMultiSelectHash` iteration after the key has been
consumed.  The two `return ASTNode{}, nil` arms on `match` failure
(parser.go lines 469 and 474) are modelled faithfully even though the guards
make them unreachable. -/
def msHashAfterKey : Nat → List ASTNode → Token → ParserState →
    Option (ParserState × Except GoErr ASTNode)
  | 0, _, _, _ => none
  | fuel + 1, children, keyToken, p =>
      match pMatch .tColon p with
      | (p, some e) => some (p, .error e)
      | (p, none) =>
          match parseExpression fuel 0 p with
          | none => none
          | some (p, .error e) => some (p, .error e)
          | some (p, .ok value) =>
              let node := ASTNode.node .ASTKeyValPair (.vstr keyToken.value) [value]
              let children2 := children ++ [node]
              if p.current = .tComma then
                match pMatch .tComma p with
                | (p, some _) => some (p, .ok emptyAST)
                | (p, none) => msHashLoop fuel children2 p
              else if p.current = .tRbrace then
                match pMatch .tRbrace p with
                | (p, some _) => some (p, .ok emptyAST)
                | (p, none) =>
                    some (p, .ok (.node .ASTMultiSelectHash .vnil children2))
              else msHashLoop fuel children2 p
termination_by structural fuel _ _ _ => fuel

/-- `projectIfSlice` (parser.go). -/
def projectIfSlice : Nat → ASTNode → ASTNode → ParserState →
    Option (ParserState × Except GoErr ASTNode)
  | 0, _, _, _ => none
  | fuel + 1, left, right, p =>
      let indexExpr := ASTNode.node .ASTIndexExpression .vnil [left, right]
      if right.nodeType = .ASTSlice then
        match parseProjectionRHS fuel (bindingPowers .tStar) p with
        | none => none
        | some (p, .error e) => some (p, .error e)
        | some (p, .ok right2) =>
            some (p, .ok (.node .ASTProjection .vnil [indexExpr, right2]))
      else some (p, .ok indexExpr)
termination_by structural fuel _ _ _ => fuel

/-- `parseFilter` (parser.go). -/
def parseFilter : Nat → ASTNode → ParserState → Option (ParserState × Except GoErr ASTNode)
  | 0, _, _ => none
  | fuel + 1, node, p =>
      match parseExpression fuel 0 p with
      | none => none
      | some (p, .error e) => some (p, .error e)
      | some (p, .ok condition) =>
          match pMatch .tRbracket p with
          | (p, some e) => some (p, .error e)
          | (p, none) =>
              if p.current = .tFlatten then
                some (p, .ok (.node .ASTFilterProjection .vnil
                  [node, .node .ASTIdentity .vnil [], condition]))
              else
                match parseProjectionRHS fuel (bindingPowers .tFilter) p with
                | none => none
                | some (p, .error e) => some (p, .error e)
                | some (p, .ok right) =>
                    some (p, .ok (.node .ASTFilterProjection .vnil [node, right, condition]))
termination_by structural fuel _ _ => fuel

/-- `parseDotRHS` (parser.go). -/
def parseDotRHS : Nat → Nat → ParserState → Option (ParserState × Except GoErr ASTNode)
  | 0, _, _ => none
  | fuel + 1, bindingPower, p =>
      let lookahead := p.current
      if tokensOneOf [.tQuotedIdentifier, .tUnquotedIdentifier, .tStar] lookahead then
        parseExpression fuel bindingPower p
      else if lookahead = .tLbracket then
        match pMatch .tLbracket p with
        | (p, some e) => some (p, .error e)
        | (p, none) => parseMultiSelectList fuel p
      else if lookahead = .tLbrace then
        match pMatch .tLbrace p with
        | (p, some e) => some (p, .error e)
        | (p, none) => parseMultiSelectHash fuel p
      else
        some (p, .error (p.synErrorAt "Expected identifier, lbracket, or lbrace".data))
termination_by structural fuel _ _ => fuel

/-- `parseProjectionRHS` (parser.go). -/
def parseProjectionRHS : Nat → Nat → ParserState → Option (ParserState × Except GoErr ASTNode)
  | 0, _, _ => none
  | fuel + 1, bindingPower, p =>
      let current := p.current
      if bindingPowers current < 10 then
        some (p, .ok (.node .ASTIdentity .vnil []))
      else if current = .tLbracket then
        parseExpression fuel bindingPower p
      else if current = .tFilter then
        parseExpression fuel bindingPower p
      else if current = .tDot then
        match pMatch .tDot p with
        | (p, some e) => some (p, .error e)
        | (p, none) => parseDotRHS fuel bindingPower p
      else some (p, .error (p.synErrorAt "Error".data))
termination_by structural fuel _ _ => fuel

end

/-- `Parse` (parser.go): tokenize, parse an expression at binding power 0,
then require the trailing token to be `tEOF`.  The fuel is generous; the
concrete evaluations below stay far below it. -/
def Parse (expression : List Char) : Except GoErr ASTNode :=
  match tokenize expression with
  | .error e => .error e
  | .ok tokens =>
      let p : ParserState := ⟨expression, tokens, 0⟩
      match parseExpression (2 * (tokens.length + expression.length) + 8) 0 p with
      | none => .error (.goError "parse: fuel exhausted".data)
      | some (_, .error e) => .error e
      | some (p, .ok parsed) =>
          if p.current ≠ .tEOF then
            .error (p.synErrorAt ("Unexpected token at the end of the expression: ".data
              ++ (p.current).goString))
          else .ok parsed

/-- C4: **refuted (code bug).**  The claim says every token mismatch makes
`Parse` fail with a SyntaxError, naming the expression `"[0"` (a bracketed
index missing its closing bracket) as an example.  In fact `Parse "[0"`
succeeds and returns the zero-value AST node: the missing `]` is detected
(`match(tRbracket)` fails inside `parseIndexExpression`), but the `tLbracket`
case of `nud` discards the error (`return ASTNode{}, nil`, parser.go line
369), so the parse completes with no error. -/
theorem C4_parse_swallowed_error :
    Parse "[0".data = .ok emptyAST := by rfl

end JMES
